import Mathlib

/-!
Shallow embedding of the Kivi browser (`kikios_root/bin/browser.py`) and
verification of the frozen specification claims.

Modelling conventions:
* Python `str` is modelled as `List Char` (`Str`); Python `bytes` as
  `List (Fin 256)` (`Byte`).
* Python integer division `//` is floor division, modelled by `Int.fdiv`.
* `int(...)` and `chr(...)` can raise `ValueError`; they are modelled as
  `Option`-returning functions (`pyIntDec`, `pyIntHex`, `pyChr`), and a `none`
  result is propagated as `Except.error PyErr.valueError` exactly where the
  source has no enclosing `try`.  (Deviations kept outside any claim: Python
  `int` also accepts underscore digit separators and non-ASCII digits, and
  Python `chr` accepts lone surrogates, which `Char` cannot represent.)
* Loops whose index strictly advances are modelled by structural recursion on
  the remaining suffix, with a fuel parameter where the step size is not
  structural; fuel `length + 1` always suffices since every iteration consumes
  at least one element.
-/

namespace Kivi

deriving instance DecidableEq for Except

/-- Python strings are sequences of code points. -/
abbrev Str := List Char

/-- Bytes, as produced by the socket layer. -/
abbrev Byte := Fin 256

/-- The only exception kind raised by the modelled code paths
(`int` / `chr` raise `ValueError`). -/
inductive PyErr where
  | valueError
deriving DecidableEq, Repr

/-- Convert a Lean string literal to the model's string type. -/
def lit (s : String) : Str := s.toList

/-- Characters stripped by Python `str.strip()` / recognised by `str.split()`. -/
def pyWs : List Char := [' ', '\t', '\n', '\r', '\x0b', '\x0c']

/-- Python `str.strip()` (no arguments): drop leading and trailing whitespace. -/
def pyStrip (s : Str) : Str :=
  ((s.dropWhile (· ∈ pyWs)).reverse.dropWhile (· ∈ pyWs)).reverse

/-- Python `str.rstrip('/')`: drop trailing `/` characters. -/
def pyRstripSlash (s : Str) : Str :=
  (s.reverse.dropWhile (· = '/')).reverse

/-- Python `str.lower()` (ASCII case folding suffices for this program). -/
def pyLower (s : Str) : Str := s.map Char.toLower

/-- Index of the first occurrence of `pat` in `s` (Python `find`, restricted to
the successful/`-1` dichotomy via `Option`). -/
def findPat {α} [DecidableEq α] (pat : List α) : List α → Option Nat
  | [] => if pat = [] then some 0 else none
  | a :: rest =>
    if pat.isPrefixOf (a :: rest) then some 0
    else (findPat pat rest).map (· + 1)

/-- Python `s.find(c)` for a single character. -/
def findChar (c : Char) (s : Str) : Option Nat := findPat [c] s

/-- Index of the last occurrence of `c` in `s` (used by `rsplit('/', 1)`). -/
def findLastChar (c : Char) (s : Str) : Option Nat :=
  match findPat [c] s.reverse with
  | some k => some (s.length - 1 - k)
  | none => none

/-- Python `s.rsplit('/', 1)[0]`: everything before the last `/`, or all of `s`
if there is none. -/
def rsplitSlashHead (s : Str) : Str :=
  match findLastChar '/' s with
  | some k => s.take k
  | none => s

/-- ASCII decimal digit test. -/
def isDigitCh (c : Char) : Bool := 48 ≤ c.toNat && c.toNat ≤ 57

/-- ASCII hexadecimal digit test. -/
def isHexDigitCh (c : Char) : Bool :=
  isDigitCh c || (97 ≤ c.toNat && c.toNat ≤ 102) || (65 ≤ c.toNat && c.toNat ≤ 70)

/-- Numeric value of one hexadecimal digit. -/
def hexVal (c : Char) : Nat :=
  if isDigitCh c then c.toNat - 48
  else if 97 ≤ c.toNat then c.toNat - 87
  else c.toNat - 55

/-- Accumulate decimal digits. -/
def digitsToNat (ds : Str) : Nat := ds.foldl (fun a c => a * 10 + (c.toNat - 48)) 0

/-- Accumulate hexadecimal digits. -/
def hexDigitsToNat (ds : Str) : Nat := ds.foldl (fun a c => a * 16 + hexVal c) 0

/-- Python `int(s)`: optional surrounding whitespace, optional sign, a nonempty
run of decimal digits; anything else raises (`none`). -/
def pyIntDec (s : Str) : Option Int :=
  let s := pyStrip s
  let (sign, ds) : Int × Str :=
    match s with
    | '+' :: t => (1, t)
    | '-' :: t => (-1, t)
    | t => (1, t)
  if ds ≠ [] ∧ ds.all isDigitCh then some (sign * digitsToNat ds) else none

/-- Python `int(s, 16)`: as `pyIntDec` but hexadecimal digits, allowing an
optional `0x`/`0X` prefix after the sign. -/
def pyIntHex (s : Str) : Option Int :=
  let s := pyStrip s
  let (sign, ds) : Int × Str :=
    match s with
    | '+' :: t => (1, t)
    | '-' :: t => (-1, t)
    | t => (1, t)
  let ds := match ds with
    | '0' :: 'x' :: t => t
    | '0' :: 'X' :: t => t
    | t => t
  if ds ≠ [] ∧ ds.all isHexDigitCh then some (sign * hexDigitsToNat ds) else none

/-- Python `chr(n)`: valid for scalar values `0 ≤ n < 0x110000`; surrogate code
points are treated as invalid here (see module comment). -/
def pyChr (n : Int) : Option Char :=
  if 0 ≤ n ∧ n < 0x110000 ∧ ¬ (0xD800 ≤ n ∧ n < 0xE000) then
    some (Char.ofNat n.toNat)
  else none

/-- Decimal digits of a natural number (with fuel, most significant first). -/
def natDigits : Nat → Nat → Str
  | 0, _ => []
  | f + 1, n => if n < 10 then [Char.ofNat (48 + n)]
      else natDigits f (n / 10) ++ [Char.ofNat (48 + n % 10)]

/-- Python `str(i)` for an integer. -/
def intStr (i : Int) : Str :=
  if i < 0 then '-' :: natDigits (i.natAbs + 1) i.natAbs
  else natDigits (i.toNat + 1) i.toNat

/-- Python `sep.join`-style helper for `' '.join(words)`. -/
def joinSpace : List Str → Str
  | [] => []
  | [w] => w
  | w :: ws => w ++ ' ' :: joinSpace ws

/-- Worker for Python `str.split()` (no arguments): split on whitespace runs,
discarding empties.  Fuel: every step consumes at least one character. -/
def splitWsAux : Nat → Str → List Str
  | 0, _ => []
  | f + 1, s =>
    let s1 := s.dropWhile (· ∈ pyWs)
    if s1 = [] then []
    else s1.takeWhile (· ∉ pyWs) :: splitWsAux f (s1.dropWhile (· ∉ pyWs))

/-- Python `str.split()` with no arguments. -/
def pySplitWs (s : Str) : List Str := splitWsAux (s.length + 1) s

/-- Worker for Python `str.split(sep)` with a nonempty separator: keeps empty
fields.  Fuel: every step consumes at least `pat.length ≥ 1` elements. -/
def splitPatAux {α} [DecidableEq α] (pat : List α) : Nat → List α → List (List α)
  | 0, s => [s]
  | f + 1, s =>
    match findPat pat s with
    | none => [s]
    | some k => s.take k :: splitPatAux pat f (s.drop (k + pat.length))

/-- Python `str.split(sep)` for a nonempty separator `pat`. -/
def pySplitPat {α} [DecidableEq α] (pat : List α) (s : List α) : List (List α) :=
  splitPatAux pat (s.length + 1) s

/-- Python dict assignment `d[k] = v` for an insertion-ordered map: overwrite in
place if the key exists, else append. -/
def dictInsert (d : List (Str × Str)) (k v : Str) : List (Str × Str) :=
  if d.any (·.1 = k) then d.map (fun kv => if kv.1 = k then (k, v) else kv)
  else d ++ [(k, v)]

/-- Python `d.get(k, default)`. -/
def dictGet (d : List (Str × Str)) (k dflt : Str) : Str :=
  match d.find? (·.1 = k) with
  | some kv => kv.2
  | none => dflt

/-! ## URL Resolver (`parse_url`, `resolve_url`) -/

/-- Result of `parse_url`: `(scheme, host, port, path)`; `host`/`port` are
`None` for the `file` scheme. -/
structure UrlParts where
  scheme : Str
  host : Option Str
  port : Option Int
  path : Str
deriving DecidableEq, Repr

/-- `parse_url(url)` from the source.  The only way it can raise is
`int(host_port[colon_pos+1:])` on a non-numeric port. -/
def parse_url (url : Str) : Except PyErr UrlParts :=
  if (lit "file://").isPrefixOf url then
    .ok ⟨lit "file", none, none, url.drop 7⟩
  else
    let (scheme, url2, default_port) : Str × Str × Int :=
      if (lit "https://").isPrefixOf url then (lit "https", url.drop 8, 443)
      else if (lit "http://").isPrefixOf url then (lit "http", url.drop 7, 80)
      else (lit "http", url, 80)
    let (host_port, path) : Str × Str :=
      match findChar '/' url2 with
      | none => (url2, lit "/")
      | some slash_pos => (url2.take slash_pos, url2.drop slash_pos)
    match findChar ':' host_port with
    | none => .ok ⟨scheme, some host_port, some default_port, path⟩
    | some colon_pos =>
      match pyIntDec (host_port.drop (colon_pos + 1)) with
      | some port => .ok ⟨scheme, some (host_port.take colon_pos), some port, path⟩
      | none => .error .valueError

/-- True when `rel_url` already carries one of the recognised scheme prefixes
checked by `resolve_url`. -/
def hasSchemePfx (u : Str) : Bool :=
  (lit "http://").isPrefixOf u || (lit "https://").isPrefixOf u ||
  (lit "file://").isPrefixOf u || (lit "about:").isPrefixOf u

/-- `resolve_url(base_url, rel_url)` from the source.  Raises only if
`parse_url(base_url)` raises. -/
def resolve_url (base_url rel_url : Str) : Except PyErr Str :=
  if hasSchemePfx rel_url then .ok rel_url
  else do
    let p ← parse_url base_url
    let new_path :=
      if (lit "/").isPrefixOf rel_url then rel_url
      else (rsplitSlashHead p.path ++ [ '/' ]) ++ rel_url
    if p.scheme = lit "file" then
      .ok (lit "file://" ++ new_path)
    else
      let result := p.scheme ++ lit "://" ++ p.host.getD []
      let result :=
        if (p.scheme = lit "http" ∧ p.port ≠ some 80) ∨
           (p.scheme = lit "https" ∧ p.port ≠ some 443) then
          result ++ ':' :: intStr (p.port.getD 0)
        else result
      .ok (result ++ new_path)

/-! ## HTTP response parsing (`parse_http_response`) -/

/-- Decode one byte to a character, as Python `chr(b)` for `b` in a bytes
object (always a valid code point below 256). -/
def chrB (b : Byte) : Char := Char.ofNat b.val

/-- Encode an ASCII-ish string as bytes (helper for concrete inputs). -/
def bytesOf (s : Str) : List Byte := s.map (fun c => ⟨c.toNat % 256, by omega⟩)

/-- The `\r\n\r\n` header/body separator. -/
def HTTP_SEP : List Byte := [13, 10, 13, 10]

/-- The statuses treated as redirects by the source. -/
def redirectCodes : List Int := [301, 302, 307, 308]

/-- The `for line in lines[1:]` scan for a `Location` header: first line whose
lower-casing starts with `location:`. -/
def findLocation : List Str → Option Str
  | [] => none
  | line :: rest =>
    if (lit "location:").isPrefixOf (pyLower line) then some line
    else findLocation rest

/-- `parse_http_response(data)` from the source.  The only way it can raise is
`int(parts[1])` on a non-numeric status token. -/
def parse_http_response (data : List Byte) : Except PyErr (Int × Str) :=
  match findPat HTTP_SEP data with
  | none => .ok (0, lit "Invalid HTTP response")
  | some sep =>
    let header_bytes := data.take sep
    let body_bytes := data.drop (sep + 4)
    let header_str := header_bytes.map chrB
    let lines := pySplitPat (lit "\r\n") header_str
    let parts := pySplitPat [' '] (lines.headD [])
    let status? : Except PyErr Int :=
      match parts with
      | _ :: p1 :: _ =>
        match pyIntDec p1 with
        | some v => .ok v
        | none => .error .valueError
      | _ => .ok 0
    match status? with
    | .error e => .error e
    | .ok status =>
      if status ∈ redirectCodes then
        match findLocation lines.tail with
        | some line => .ok (status, pyStrip (line.drop 9))
        | none => .ok (status, body_bytes.map chrB)
      else .ok (status, body_bytes.map chrB)

/-- The second space-separated token of the status line, when the response has
a header/body separator and the status line has at least two tokens (mirrors
the pipeline of `parse_http_response`). -/
def statusToken (data : List Byte) : Option Str :=
  match findPat HTTP_SEP data with
  | none => none
  | some sep =>
    let header_str := (data.take sep).map chrB
    let lines := pySplitPat (lit "\r\n") header_str
    match pySplitPat [' '] (lines.headD []) with
    | _ :: p1 :: _ => some p1
    | _ => none

/-! ## Entity decoding (`decode_entities`) -/

/-- A single quote character (written via its code point to keep the file free
of quote-escaping pitfalls). -/
def sq : Char := Char.ofNat 39

/-- A double quote character. -/
def dq : Char := Char.ofNat 34

/-- The `HTML_ENTITIES` table from the source. -/
def HTML_ENTITIES : List (Str × Str) := [
  (lit "amp", lit "&"), (lit "lt", lit "<"), (lit "gt", lit ">"),
  (lit "quot", [dq]), (lit "apos", [sq]),
  (lit "nbsp", lit " "), (lit "copy", lit "(c)"), (lit "reg", lit "(R)"),
  (lit "trade", lit "(TM)"),
  (lit "mdash", lit "-"), (lit "ndash", lit "-"), (lit "bull", lit "*"),
  (lit "hellip", lit "..."),
  (lit "laquo", lit "<<"), (lit "raquo", lit ">>"), (lit "ldquo", [dq]),
  (lit "rdquo", [dq]),
  (lit "lsquo", [sq]), (lit "rsquo", [sq]), (lit "pound", lit "GBP"),
  (lit "euro", lit "EUR"),
  (lit "yen", lit "JPY"), (lit "cent", lit "c"), (lit "times", lit "x"),
  (lit "divide", lit "/"),
  (lit "plusmn", lit "+/-"), (lit "deg", lit "deg"), (lit "larr", lit "<-"),
  (lit "rarr", lit "->"),
  (lit "uarr", lit "^"), (lit "darr", lit "v"), (lit "middot", lit "."),
  (lit "sect", lit "S"),
  (lit "para", lit "P"), (lit "dagger", lit "+"), (lit "permil", lit "o/oo"),
  (lit "prime", [sq]),
  (lit "infin", lit "inf"), (lit "ne", lit "!="), (lit "le", lit "<="),
  (lit "ge", lit ">="),
  (lit "asymp", lit "~="), (lit "equiv", lit "==="), (lit "alpha", lit "a"),
  (lit "beta", lit "b"),
  (lit "gamma", lit "g"), (lit "delta", lit "d"), (lit "pi", lit "pi"),
  (lit "sigma", lit "s"), (lit "omega", lit "w")]

/-- Decode one entity body (the text between `&` and `;`): hex numeric,
decimal numeric, or named; `none` means the reference is passed through
literally (this folds the source's `try/except` around `chr(int(...))`). -/
def decodeRef (entity : Str) : Option Str :=
  if (lit "#x").isPrefixOf entity then
    match pyIntHex (entity.drop 2) with
    | some n => (pyChr n).map ([·])
    | none => none
  else if (lit "#").isPrefixOf entity then
    match pyIntDec (entity.drop 1) with
    | some n => (pyChr n).map ([·])
    | none => none
  else
    match HTML_ENTITIES.find? (·.1 = entity) with
    | some kv => some kv.2
    | none => none

/-- The scanning loop of `decode_entities`, on the remaining suffix (the
source's index `i` is position 0 here). -/
def decodeLoop : Nat → Str → Str
  | 0, _ => []
  | _ + 1, [] => []
  | f + 1, text@(c :: rest) =>
    if c = '&' then
      match findChar ';' text with
      | some endp =>
        if endp < 12 then
          let entity := (text.take endp).drop 1
          let piece :=
            match decodeRef entity with
            | some s => s
            | none => text.take (endp + 1)
          piece ++ decodeLoop f (text.drop (endp + 1))
        else c :: decodeLoop f rest
      | none => c :: decodeLoop f rest
    else c :: decodeLoop f rest

/-- `decode_entities(text)` from the source (never raises: the numeric
branches catch their own errors). -/
def decode_entities (text : Str) : Str := decodeLoop (text.length + 1) text

/-! ## HTML parsing (`Element`, `parse_attrs`, `parse_html`)

The Python code mutates `Element` objects shared between the tree and the
open-element stack.  Since mutation only ever targets the stack top, the model
keeps the stack as `(top, rest)` and attaches an element to its parent's child
list at pop time (Python attaches at append time and mutates in place; the two
are observationally identical through the returned tree). -/

/-- A DOM element: tag, attribute map, ordered children, directly-owned text. -/
inductive Element where
  | mk (tag : Str) (attrs : List (Str × Str)) (children : List Element) (text : Str)

/-- Tag accessor. -/
def Element.tag : Element → Str
  | .mk t _ _ _ => t

/-- Attribute-map accessor. -/
def Element.attrs : Element → List (Str × Str)
  | .mk _ a _ _ => a

/-- Children accessor. -/
def Element.children : Element → List Element
  | .mk _ _ c _ => c

/-- Text accessor. -/
def Element.text : Element → Str
  | .mk _ _ _ t => t

/-- `Element.__init__`: lower-cases the tag, starts with no children or text. -/
def Element.new (tag : Str) (attrs : List (Str × Str)) : Element :=
  .mk (if tag ≠ [] then pyLower tag else []) attrs [] []

/-- The whitespace set used by `parse_attrs` (space, tab, newline only). -/
def attrWs : List Char := [' ', '\t', '\n']

/-- The scanning loop of `parse_attrs`: each iteration parses one
`name[=value]` unit; every iteration consumes at least one character. -/
def parseAttrsLoop : Nat → Str → List (Str × Str) → List (Str × Str)
  | 0, _, attrs => attrs
  | f + 1, s, attrs =>
    let s := s.dropWhile (· ∈ attrWs)
    if s = [] then attrs
    else
      let name := pyLower (s.takeWhile (fun c => ¬ (c = '=' ∨ c ∈ attrWs)))
      let s := s.dropWhile (fun c => ¬ (c = '=' ∨ c ∈ attrWs))
      let s := s.dropWhile (fun c => c ∈ attrWs ∨ c = '=')
      let (value, s) : Str × Str :=
        match s with
        | q :: rest =>
          if q = dq ∨ q = sq then
            (rest.takeWhile (· ≠ q), (rest.dropWhile (· ≠ q)).drop 1)
          else
            (s.takeWhile (fun c => ¬ (c ∈ attrWs ∨ c = '>')),
             s.dropWhile (fun c => ¬ (c ∈ attrWs ∨ c = '>')))
        | [] => ([], [])
      let attrs := if name ≠ [] then dictInsert attrs name value else attrs
      parseAttrsLoop f s attrs

/-- `parse_attrs(attr_str)` from the source (total: never raises). -/
def parse_attrs (attr_str : Str) : List (Str × Str) :=
  parseAttrsLoop (attr_str.length + 1) attr_str []

/-- Pop the stack top into its parent's child list (`stack.pop()`; attachment
happens here in the model, see section comment). -/
def attachTop (top p : Element) : Element :=
  .mk p.tag p.attrs (p.children ++ [top]) p.text

/-- The close-tag handling of `parse_html`: pop until a matching tag or until
only the root remains; pop the match too if found. -/
def closeTag (tag_name : Str) : Element → List Element → Element × List Element
  | top, [] => (top, [])
  | top, p :: rest =>
    if top.tag = tag_name then (attachTop top p, rest)
    else closeTag tag_name (attachTop top p) rest

/-- Fold the whole remaining stack down to the root (end of input; in Python
the elements are already attached, here attachment happens as we fold). -/
def collapse : Element → List Element → Element
  | top, [] => top
  | top, p :: rest => collapse (attachTop top p) rest

/-- Append a child to the current stack top (`stack[-1].children.append`). -/
def appendChildTop (top elem : Element) : Element :=
  .mk top.tag top.attrs (top.children ++ [elem]) top.text

/-- Append a text run to the current stack top, joining with a single space if
text is already present. -/
def appendTextTop (top : Element) (t : Str) : Element :=
  .mk top.tag top.attrs top.children
    (if top.text ≠ [] then top.text ++ ' ' :: t else top.text ++ t)

/-- The void-tag set. -/
def void_tags : List Str :=
  [lit "br", lit "hr", lit "img", lit "input", lit "meta", lit "link"]

/-- The main scanning loop of `parse_html`, over the remaining input suffix.
Every iteration consumes at least one character, so fuel `length + 1` never
runs out (see the claim C9 theorem). -/
def parseLoop : Nat → Element → List Element → Str → Element
  | 0, top, stk, _ => collapse top stk
  | _ + 1, top, stk, [] => collapse top stk
  | f + 1, top, stk, html@(c :: rest) =>
    if c = '<' then
      match findChar '>' rest with
      | none => collapse top stk
      | some e =>
        let tag_content := pyStrip (rest.take e)
        let cont := rest.drop (e + 1)
        if (lit "!").isPrefixOf tag_content then
          parseLoop f top stk cont
        else if (lit "/").isPrefixOf tag_content then
          let tag_name := pyLower (pyStrip (tag_content.drop 1))
          let (top', stk') := closeTag tag_name top stk
          parseLoop f top' stk' cont
        else
          let (tag_name, attrs) : Str × List (Str × Str) :=
            match findChar ' ' tag_content with
            | none => (pyLower (pyRstripSlash tag_content), [])
            | some space => (pyLower (tag_content.take space), parse_attrs (tag_content.drop space))
          let elem := Element.new tag_name attrs
          if tag_name ∉ void_tags ∧ ¬ (lit "/").isSuffixOf tag_content then
            parseLoop f elem (top :: stk) cont
          else
            parseLoop f (appendChildTop top elem) stk cont
    else
      let (text, cont) : Str × Str :=
        match findChar '<' rest with
        | none => (html, [])
        | some j => (c :: rest.take j, rest.drop j)
      let top' :=
        if pyStrip text ≠ [] then
          appendTextTop top (joinSpace (pySplitWs (decode_entities text)))
        else top
      parseLoop f top' stk cont

/-- `parse_html(html)` from the source: always returns a best-effort tree. -/
def parse_html (html : Str) : Element :=
  parseLoop (html.length + 1) (Element.new (lit "root") []) [] html

/-! ## Layout engine

`vibe`'s font service is external; it is modelled by a `FontOracle`.  The
module-global `CONTENT_W` (mutated by `layout_document`) is threaded through
as an explicit width parameter `W`.  Python `//` is `Int.fdiv`. -/

/-- Window and layout constants from the source. -/
def WIN_W : Int := 640

/-- Window height constant. -/
def WIN_H : Int := 480

/-- Content margin constant. -/
def MARGIN : Int := 10

/-- Scrollbar width constant. -/
def SCROLLBAR_W : Int := 12

/-- Address bar height constant. -/
def ADDRESS_BAR_H : Int := 24

/-- Colors from the source (only carried through, never interpreted). -/
def WHITE : Int := 0x00FFFFFF

/-- Black. -/
def BLACK : Int := 0x00000000

/-- Gray. -/
def GRAY : Int := 0x00888888

/-- Light gray. -/
def LIGHT_GRAY : Int := 0x00CCCCCC

/-- Link color. -/
def LINK_COLOR : Int := 0x000000FF

/-- Blockquote background. -/
def BLOCKQUOTE_BG : Int := 0x00EEEEEE

/-- `vibe.TTF_BOLD` style flag (external constant; any fixed bit works). -/
def TTF_BOLD : Nat := 1

/-- `vibe.TTF_ITALIC` style flag (external constant). -/
def TTF_ITALIC : Nat := 2

/-- The `FONT_SIZES` table. -/
def FONT_SIZES : List (Str × Int) :=
  [(lit "h1", 28), (lit "h2", 24), (lit "h3", 20), (lit "h4", 18),
   (lit "h5", 16), (lit "h6", 14), (lit "default", 16)]

/-- The font service boundary: per-glyph advance, pairwise kerning, and
per-size `(ascent, descent, line_gap)` metrics. -/
structure FontOracle where
  advance : Nat → Int → Int
  kerning : Nat → Nat → Int → Int
  metrics : Int → Int × Int × Int

/-- A rendered block; Python assigns `w`/`h` after construction, the model
builds the finished block directly. -/
structure TextBlock where
  x : Int
  y : Int
  text : Str
  font_size : Int
  style : Nat
  fg : Int
  href : Option Str
  w : Int
  h : Int
deriving DecidableEq, Repr

/-- A link hit-region `(x, y, w, h, href)`. -/
structure LinkRegion where
  x : Int
  y : Int
  w : Int
  h : Int
  href : Str
deriving DecidableEq, Repr

/-- Python truthiness for the `href` values flowing through layout
(`None` and the empty string are falsy). -/
def truthyS : Option Str → Bool
  | some s => s ≠ []
  | none => false

/-- `measure_text`'s accumulation loop (`prev_cp` starts at 0; kerning is added
only when `prev_cp` is truthy, i.e. nonzero). -/
def measureAux (fo : FontOracle) (size : Int) : Nat → Int → Str → Int
  | _, width, [] => width
  | prev_cp, width, ch :: t =>
    let cp := ch.toNat
    let width := width + fo.advance cp size
    let width := if prev_cp ≠ 0 then width + fo.kerning prev_cp cp size else width
    measureAux fo size cp width t

/-- `measure_text(text, font_size)` from the source. -/
def measure_text (fo : FontOracle) (text : Str) (size : Int) : Int :=
  measureAux fo size 0 0 text

/-- `find_element(root, tag)`: depth-first search, first match wins.  Fuel
bounds the tree depth. -/
def find_element : Nat → Element → Str → Option Element
  | 0, _, _ => none
  | f + 1, root, tag =>
    if root.tag = tag then some root
    else root.children.findSome? (fun c => find_element f c tag)

/-- `get_all_text(elem)`: all text content, recursively. -/
def get_all_text : Nat → Element → Str
  | 0, _ => []
  | f + 1, e => e.text ++ (e.children.map (get_all_text f)).flatten

/-- The line-building loop of `layout_text`: greedy word placement; wraps when
the next word would push past `max_x`, but never before a line's first word.
Returns the emitted lines as word lists (the source joins each with spaces at
emission; `layout_text` below performs that join). -/
def layoutTextLines (fo : FontOracle) (font_size x max_x : Int) :
    List Str → List Str → List (List Str)
  | [], line_words => if line_words ≠ [] then [line_words] else []
  | word :: words, line_words =>
    let word_w := measure_text fo word font_size
    let test_w :=
      if line_words ≠ [] then
        measure_text fo (joinSpace (line_words ++ [word])) font_size
      else word_w
    if x + test_w > max_x ∧ line_words ≠ [] then
      line_words :: layoutTextLines fo font_size x max_x words [word]
    else
      layoutTextLines fo font_size x max_x words (line_words ++ [word])

/-- `layout_text(text, blocks, links, y, indent, font_size, style, fg, href)`:
the source emits one block per line (y advancing by `line_height`), plus a
link region per line when `href` is truthy, and returns the new `y`. -/
def layout_text (fo : FontOracle) (W : Int) (text : Str) (blocks : List TextBlock)
    (links : List LinkRegion) (y indent font_size : Int) (style : Nat) (fg : Int)
    (href : Option Str) : List TextBlock × List LinkRegion × Int :=
  if text = [] then (blocks, links, y)
  else
    let (ascent, descent, line_gap) := fo.metrics font_size
    let line_height := ascent - descent + line_gap
    let words := pySplitWs text
    let x := MARGIN + indent
    let max_x := MARGIN + W
    let lines := layoutTextLines fo font_size x max_x words []
    let newBlocks := lines.enum.map (fun ik =>
      let line_text := joinSpace ik.2
      ({ x := x, y := y + (ik.1 : Int) * line_height, text := line_text,
         font_size := font_size, style := style, fg := fg, href := href,
         w := measure_text fo line_text font_size, h := line_height } : TextBlock))
    let newLinks :=
      if truthyS href then
        lines.enum.map (fun ik =>
          ({ x := x, y := y + (ik.1 : Int) * line_height,
             w := measure_text fo (joinSpace ik.2) font_size, h := line_height,
             href := href.getD [] } : LinkRegion))
      else []
    (blocks ++ newBlocks, links ++ newLinks, y + (lines.length : Int) * line_height)

/-- The mutable `(x, y, blocks, links)` state of `layout_inline`. -/
structure InlineState where
  x : Int
  y : Int
  blocks : List TextBlock
  links : List LinkRegion

/-- `emit_word` from `layout_inline`: place one word, wrapping first if it
would overflow and the cursor is past the line start. -/
def emit_word (fo : FontOracle) (font_size line_height indent max_x : Int)
    (st : InlineState) (word : Str) (cur_style : Nat) (cur_href : Option Str)
    (cur_fg : Int) : InlineState :=
  if word = [] then st
  else
    let word_w := measure_text fo word font_size
    let (x, y) :=
      if st.x + word_w > max_x ∧ st.x > MARGIN + indent then
        (MARGIN + indent, st.y + line_height)
      else (st.x, st.y)
    let block : TextBlock :=
      { x := x, y := y, text := word, font_size := font_size, style := cur_style,
        fg := cur_fg, href := cur_href, w := word_w, h := line_height }
    let links :=
      if truthyS cur_href then
        st.links ++ [({ x := x, y := y, w := word_w, h := line_height,
                        href := cur_href.getD [] } : LinkRegion)]
      else st.links
    { x := x + word_w + measure_text fo (lit " ") font_size, y := y,
      blocks := st.blocks ++ [block], links := links }

/-- `process` from `layout_inline`: depth-first walk accumulating style and
link target, emitting the element's own words then recursing into children. -/
def processInline (fo : FontOracle) (font_size line_height indent max_x : Int) :
    Nat → Element → Nat → Option Str → InlineState → InlineState
  | 0, _, _, _, st => st
  | f + 1, el, cur_style, cur_href, st =>
    let s :=
      if el.tag = lit "b" ∨ el.tag = lit "strong" then cur_style ||| TTF_BOLD
      else if el.tag = lit "i" ∨ el.tag = lit "em" then cur_style ||| TTF_ITALIC
      else cur_style
    let h := cur_href
    let fg := if truthyS h then LINK_COLOR else BLACK
    let (h, fg) :=
      if el.tag = lit "a" then (some (dictGet el.attrs (lit "href") []), LINK_COLOR)
      else (h, fg)
    let st := (pySplitWs el.text).foldl
      (fun st word => emit_word fo font_size line_height indent max_x st word s h fg) st
    el.children.foldl (fun st child => processInline fo font_size line_height indent max_x f child s h st) st

/-- `layout_inline(elem, blocks, links, y, indent, font_size, style, href)`. -/
def layout_inline (fo : FontOracle) (W : Int) (fuel : Nat) (elem : Element)
    (blocks : List TextBlock) (links : List LinkRegion) (y indent font_size : Int)
    (style : Nat) (href : Option Str) : List TextBlock × List LinkRegion × Int :=
  let x := MARGIN + indent
  let max_x := MARGIN + W
  let (ascent, descent, line_gap) := fo.metrics font_size
  let line_height := ascent - descent + line_gap
  let st := processInline fo font_size line_height indent max_x fuel elem style href
    { x := x, y := y, blocks := blocks, links := links }
  (st.blocks, st.links, st.y + line_height)

/-- Collect one row's `(cell_tag, text)` pairs from its `td`/`th` children. -/
def tableCells (fuel : Nat) (row : Element) : List (Str × Str) :=
  (row.children.filter (fun c => c.tag = lit "td" ∨ c.tag = lit "th")).map
    (fun c => (c.tag, get_all_text fuel c))

/-- Collect table rows from direct `tr` children and from `thead`/`tbody`
`tr` children, skipping cell-less rows. -/
def tableRows (fuel : Nat) (table : Element) : List (List (Str × Str)) :=
  table.children.flatMap (fun child =>
    if child.tag = lit "thead" ∨ child.tag = lit "tbody" then
      child.children.flatMap (fun row =>
        if row.tag = lit "tr" then
          let cells := tableCells fuel row
          if cells ≠ [] then [cells] else []
        else [])
    else if child.tag = lit "tr" then
      let cells := tableCells fuel child
      if cells ≠ [] then [cells] else []
    else [])

/-- `layout_table(table_elem, blocks, links, y, indent, font_size, style)`.
Negative column widths (impossible for the real viewport) are not modelled
faithfully: Python's negative-stop slicing is approximated by `take 0`. -/
def layout_table (fo : FontOracle) (W : Int) (fuel : Nat) (table_elem : Element)
    (blocks : List TextBlock) (links : List LinkRegion) (y indent font_size : Int)
    (style : Nat) : List TextBlock × List LinkRegion × Int :=
  let rows := tableRows fuel table_elem
  if rows = [] then (blocks, links, y)
  else
    let num_cols : Int := rows.foldl (fun m r => max m (r.length : Int)) 0
    let col_width := Int.fdiv (W - indent - MARGIN) num_cols
    let (ascent, descent, line_gap) := fo.metrics font_size
    let row_height := ascent - descent + line_gap + 8
    let y := y + 4
    let (blocks, y) := rows.foldl (fun (acc : List TextBlock × Int) row =>
      let (blocks, y) := acc
      let (blocks, _) := row.foldl (fun (acc2 : List TextBlock × Int) cell =>
        let (blocks, cell_x) := acc2
        let cell_style := if cell.1 = lit "th" then style ||| TTF_BOLD else style
        let border : TextBlock :=
          { x := cell_x, y := y, text := lit "__CELL__", font_size := 0, style := 0,
            fg := BLACK, href := none, w := col_width, h := row_height }
        let max_chars := (Int.fdiv col_width 8).toNat
        let display := if cell.2.length > max_chars then cell.2.take max_chars else cell.2
        let tb : TextBlock :=
          { x := cell_x + 4, y := y + 4, text := display, font_size := font_size,
            style := cell_style, fg := BLACK, href := none,
            w := col_width - 8, h := row_height - 8 }
        (blocks ++ [border, tb], cell_x + col_width)) (blocks, MARGIN + indent)
      (blocks, y + row_height)) (blocks, y)
    (blocks, links, y + 4)

/-- `layout_element(elem, blocks, links, y, indent, font_size, style, href)`:
per-tag dispatch.  Fuel bounds recursion depth (strictly decreasing on child
recursion; sufficient fuel is supplied by the callers). -/
def layout_element (fo : FontOracle) (W : Int) :
    Nat → Element → List TextBlock → List LinkRegion → Int → Int → Int → Nat →
    Option Str → List TextBlock × List LinkRegion × Int
  | 0, _, blocks, links, y, _, _, _, _ => (blocks, links, y)
  | f + 1, elem, blocks, links, y, indent, font_size0, style0, href0 =>
    let tag := elem.tag
    let font_size :=
      match FONT_SIZES.find? (·.1 = tag) with
      | some kv => kv.2
      | none => font_size0
    let style :=
      if tag = lit "b" ∨ tag = lit "strong" then style0 ||| TTF_BOLD
      else if tag = lit "i" ∨ tag = lit "em" then style0 ||| TTF_ITALIC
      else style0
    let href := if tag = lit "a" then some (dictGet elem.attrs (lit "href") []) else href0
    let (ascent, descent, line_gap) := fo.metrics font_size
    let line_height := ascent - descent + line_gap
    if tag ∈ [lit "h1", lit "h2", lit "h3", lit "h4", lit "h5", lit "h6"] then
      let y := y + Int.fdiv line_height 2
      let (blocks, links, y) := layout_text fo W (get_all_text (f + 1) elem) blocks links y
        indent font_size (style ||| TTF_BOLD) BLACK href
      (blocks, links, y + Int.fdiv line_height 4)
    else if tag = lit "p" then
      let y := y + Int.fdiv line_height 4
      let (blocks, links, y) := layout_inline fo W f elem blocks links y indent font_size style href
      (blocks, links, y + Int.fdiv line_height 4)
    else if tag = lit "br" then
      (blocks, links, y + line_height)
    else if tag = lit "hr" then
      let y := y + 4
      let block : TextBlock :=
        { x := MARGIN + indent, y := y, text := lit "__HR__", font_size := 0, style := 0,
          fg := GRAY, href := none, w := W - indent, h := 1 }
      (blocks ++ [block], links, y + 8)
    else if tag = lit "ul" ∨ tag = lit "ol" then
      let y := y + 4
      let (blocks, links, y, _) := elem.children.foldl
        (fun (acc : List TextBlock × List LinkRegion × Int × Int) child =>
          let (blocks, links, y, list_num) := acc
          if child.tag = lit "li" then
            let bullet := if tag = lit "ul" then lit "* " else intStr list_num ++ lit "."
            let block : TextBlock :=
              { x := MARGIN + indent + 20, y := y, text := bullet, font_size := font_size,
                style := style, fg := BLACK, href := none,
                w := measure_text fo bullet font_size, h := line_height }
            let blocks := blocks ++ [block]
            let y0 := y
            let (blocks, links, y) := child.children.foldl
              (fun (acc2 : List TextBlock × List LinkRegion × Int) li_child =>
                let (blocks, links, y) := acc2
                layout_element fo W f li_child blocks links y (indent + 40) font_size style none)
              (blocks, links, y)
            let (blocks, links, y) :=
              if child.text ≠ [] then
                layout_text fo W child.text blocks links y (indent + 40) font_size style BLACK none
              else (blocks, links, y)
            let y := if y = y0 then y + line_height else y
            (blocks, links, y, list_num + 1)
          else (blocks, links, y, list_num))
        (blocks, links, y, (1 : Int))
      (blocks, links, y + 4)
    else if tag = lit "blockquote" then
      let y := y + 8
      let marker_y := y
      let (content_blocks, links, y2) := layout_text fo W (get_all_text (f + 1) elem) [] links y
        (indent + 20) font_size (style ||| TTF_ITALIC) BLACK href
      let marker : TextBlock :=
        { x := MARGIN + indent, y := marker_y, text := lit "__BQ_START__", font_size := 0,
          style := 0, fg := GRAY, href := none, w := W - indent,
          h := y2 - marker_y + 8 }
      (blocks ++ marker :: content_blocks, links, y2 + 8)
    else if tag = lit "pre" ∨ tag = lit "code" then
      let y := y + 4
      let (blocks, links, y) := (pySplitPat ['\n'] (get_all_text (f + 1) elem)).foldl
        (fun (acc : List TextBlock × List LinkRegion × Int) line =>
          let (blocks, links, y) := acc
          if line ≠ [] then layout_text fo W line blocks links y indent 14 0 BLACK none
          else (blocks, links, y))
        (blocks, links, y)
      (blocks, links, y + 4)
    else if tag = lit "table" then
      layout_table fo W (f + 1) elem blocks links y indent font_size style
    else
      let (blocks, links, y) :=
        if elem.text ≠ [] then
          layout_text fo W elem.text blocks links y indent font_size style
            (if truthyS href then LINK_COLOR else BLACK) href
        else (blocks, links, y)
      elem.children.foldl
        (fun (acc : List TextBlock × List LinkRegion × Int) child =>
          let (blocks, links, y) := acc
          layout_element fo W f child blocks links y indent font_size style href)
        (blocks, links, y)

/-- `Browser.layout_document(root)`: lay out `<body>` (or the whole tree),
then compute the doubled content height from the max block bottom. -/
def layout_document (fo : FontOracle) (fuel : Nat) (W : Int) (root : Element) :
    List TextBlock × List LinkRegion × Int :=
  let body :=
    match find_element fuel root (lit "body") with
    | some b => b
    | none => root
  let (blocks, links, y) := layout_element fo W fuel body [] [] MARGIN 0 16 0 none
  let max_bottom := blocks.foldl (fun m b => if b.y + b.h > m then b.y + b.h else m) y
  (blocks, links, (max_bottom + MARGIN) * 2)

/-! ## Fetch client and navigation controller

Network, DNS and file I/O live behind `vibe`; everything in `fetch_url` after
`parse_url` (transport setup, the read loop, `parse_http_response`, and
`fetch_file`) is modelled by a `Net` oracle from parsed URL parts to a
`(status, body)` pair.  Window drawing and title calls are side-effect-free on
the modelled state and are dropped. -/

/-- The built-in welcome document (`WELCOME_PAGE`). -/
def WELCOME_PAGE : Str := lit "<!DOCTYPE html>
<html>
<head><title>Welcome to Kivi</title></head>
<body>
<h1>Welcome to Kivi Browser</h1>
<p>A modern web browser for KikiOS with HTTPS support.</p>
<hr>
<h2>Try these links:</h2>
<ul>
<li><a href=\"https://example.com\">example.com</a> - A simple test page (HTTPS)</li>
<li><a href=\"http://info.cern.ch\">info.cern.ch</a> - The first website ever</li>
<li><a href=\"http://motherfuckingwebsite.com\">motherfuckingwebsite.com</a> - Clean HTML sites work best</li>
<li><a href=\"https://www.google.com\">google.com</a> - Try HTTPS sites!</li>
</ul>
<hr>
<h2>Features:</h2>
<ul>
<li>HTTP and HTTPS support with TLS 1.2</li>
<li>HTML rendering with TTF fonts</li>
<li>Link navigation and history</li>
<li>Local file browsing (file://)</li>
</ul>
<hr>
<p>Tip: Click the address bar to type a URL, press Enter to navigate.</p>
<p>Use the back button or Page Up/Down to navigate.</p>
</body>
</html>"

/-- The external-world boundary of `fetch_url`: DNS + transport + read loop +
response parsing for `http`/`https`, or `fetch_file` for `file`, as a function
of the parsed URL. -/
abbrev Net := UrlParts → Int × Str

/-- `fetch_url(url)`: `about:` pages are synthesized; otherwise the URL is
parsed (which can raise on a malformed port) and the rest of the fetch is the
`Net` oracle. -/
def fetch_url (net : Net) (url : Str) : Except PyErr (Int × Str) :=
  if url = lit "about:home" ∨ url = lit "about:blank" then .ok (200, WELCOME_PAGE)
  else do
    let parts ← parse_url url
    .ok (net parts)

/-- Why a `navigate` call failed to return: a propagating Python exception, or
(model artifact) fuel exhaustion standing for unbounded redirect recursion. -/
inductive NavStop where
  | err (e : PyErr)
  | fuelOut
deriving DecidableEq, Repr

/-- The mutable state of a `Browser` instance. -/
structure BState where
  url : Str
  history : List Str
  forward_history : List Str
  blocks : List TextBlock
  links : List LinkRegion
  scroll_y : Int
  max_scroll : Int
  content_height : Int
  address_text : Str
  editing_url : Bool
  cursor_pos : Nat
  kiosk_mode : Bool
  win_w : Int
  win_h : Int
  content_y : Int
  content_h : Int
  content_w : Int
  scrollbar_dragging : Bool
  scrollbar_drag_start_y : Int
  scrollbar_drag_start_scroll : Int
  current_html : Str
deriving Repr, DecidableEq

/-- `Browser.__init__(kiosk_mode)`. -/
def Browser.init (kiosk_mode : Bool) : BState :=
  let content_y : Int := if kiosk_mode then 20 else ADDRESS_BAR_H + 2
  { url := [], history := [], forward_history := [], blocks := [], links := [],
    scroll_y := 0, max_scroll := 0, content_height := 0, address_text := [],
    editing_url := false, cursor_pos := 0, kiosk_mode := kiosk_mode,
    win_w := WIN_W, win_h := WIN_H, content_y := content_y,
    content_h := if kiosk_mode then WIN_H - 20 else WIN_H - content_y,
    content_w := WIN_W - MARGIN * 2 - SCROLLBAR_W,
    scrollbar_dragging := false, scrollbar_drag_start_y := 0,
    scrollbar_drag_start_scroll := 0, current_html := [] }

/-- `Browser.navigate(url, from_back, from_forward)`.  Exceptions raised by
`resolve_url`/`fetch_url` propagate (there is no `try` in the source); the
redirect recursion is fuelled, `.error .fuelOut` standing for divergence. -/
def navigate (net : Net) (fo : FontOracle) :
    Nat → BState → Str → Bool → Bool → Except NavStop BState
  | 0, _, _, _, _ => .error .fuelOut
  | fuel + 1, b, url0, from_back, from_forward =>
    match resolve_url b.url url0 with
    | .error e => .error (.err e)
    | .ok url =>
      let b :=
        if b.url ≠ [] then
          if from_forward then { b with forward_history := b.forward_history ++ [b.url] }
          else if ¬ from_back then { b with history := b.history ++ [b.url], forward_history := [] }
          else b
        else b
      let b := { b with url := url, address_text := url, scroll_y := 0, editing_url := false }
      match fetch_url net url with
      | .error e => .error (.err e)
      | .ok (status, body) =>
        if status ∈ redirectCodes then
          navigate net fo fuel b body false false
        else
          let body :=
            if status ≠ 200 then
              lit "<html><body><h1>Error " ++ intStr status ++ lit "</h1><p>" ++
                body ++ lit "</p></body></html>"
            else body
          let b := { b with current_html := body }
          let root := parse_html body
          let (blocks, links, content_height) :=
            layout_document fo (body.length + 1) b.content_w root
          let b := { b with blocks := blocks, links := links, content_height := content_height }
          .ok { b with max_scroll := max 0 (content_height - b.content_h) }

/-- `Browser.back()`. -/
def back (net : Net) (fo : FontOracle) (fuel : Nat) (b : BState) : Except NavStop BState :=
  if b.history.length > 0 then
    let b := { b with forward_history := b.forward_history ++ [b.url] }
    let url := b.history.getLast?.getD []
    let b := { b with history := b.history.dropLast, url := [] }
    navigate net fo fuel b url true false
  else .ok b

/-- `Browser.forward()`. -/
def forward (net : Net) (fo : FontOracle) (fuel : Nat) (b : BState) : Except NavStop BState :=
  if b.forward_history.length > 0 then
    let b := { b with history := b.history ++ [b.url] }
    let url := b.forward_history.getLast?.getD []
    let b := { b with forward_history := b.forward_history.dropLast, url := [] }
    navigate net fo fuel b url false true
  else .ok b

/-- `Browser.refresh()`: clear the current URL (so no history entry is added)
then re-navigate to it. -/
def refresh (net : Net) (fo : FontOracle) (fuel : Nat) (b : BState) : Except NavStop BState :=
  if b.url ≠ [] then
    let url := b.url
    navigate net fo fuel { b with url := [] } url false false
  else .ok b

/-- `Browser.handle_resize(new_w, new_h)`: recompute the viewport; re-layout
and clamp the scroll only when `self.current_html` is truthy (nonempty). -/
def handle_resize (fo : FontOracle) (b : BState) (new_w new_h : Int) : BState :=
  let b := { b with win_w := new_w, win_h := new_h }
  let b := { b with
    content_h := if b.kiosk_mode then new_h - 20 else new_h - b.content_y,
    content_w := new_w - MARGIN * 2 - SCROLLBAR_W }
  if b.current_html ≠ [] then
    let root := parse_html b.current_html
    let (blocks, links, content_height) :=
      layout_document fo (b.current_html.length + 1) b.content_w root
    let b := { b with blocks := blocks, links := links, content_height := content_height }
    let b := { b with max_scroll := max 0 (content_height - b.content_h) }
    if b.scroll_y > b.max_scroll then { b with scroll_y := b.max_scroll } else b
  else b

/-- `chr(key)` for a printable key (always a valid code point in context). -/
def keyChar (key : Int) : Str :=
  match pyChr key with
  | some c => [c]
  | none => []

/-- `Browser.handle_key(key)`: returns the new state and the `running` flag.
Enter while editing triggers `navigate`, whose exceptions propagate. -/
def handle_key (net : Net) (fo : FontOracle) (fuel : Nat) (b : BState) (key : Int) :
    Except NavStop (BState × Bool) :=
  if b.editing_url then
    if key = 13 ∨ key = 10 then
      let b := { b with editing_url := false }
      match navigate net fo fuel b b.address_text false false with
      | .error e => .error e
      | .ok b => .ok (b, true)
    else if key = 27 then
      .ok ({ b with editing_url := false, address_text := b.url }, true)
    else if key = 8 ∨ key = 127 then
      if b.cursor_pos > 0 then
        .ok ({ b with
          address_text := b.address_text.take (b.cursor_pos - 1) ++ b.address_text.drop b.cursor_pos,
          cursor_pos := b.cursor_pos - 1 }, true)
      else .ok (b, true)
    else if 32 ≤ key ∧ key < 127 then
      .ok ({ b with
        address_text := b.address_text.take b.cursor_pos ++ keyChar key ++ b.address_text.drop b.cursor_pos,
        cursor_pos := b.cursor_pos + 1 }, true)
    else .ok (b, true)
  else
    if key = 27 then .ok (b, false)
    else if key = 0x100 then .ok ({ b with scroll_y := max 0 (b.scroll_y - 20) }, true)
    else if key = 0x101 then .ok ({ b with scroll_y := min b.max_scroll (b.scroll_y + 20) }, true)
    else if key = 0x109 then .ok ({ b with scroll_y := max 0 (b.scroll_y - b.content_h) }, true)
    else if key = 0x10A then .ok ({ b with scroll_y := min b.max_scroll (b.scroll_y + b.content_h) }, true)
    else .ok (b, true)

/-- `Browser.handle_mouse_move(x, y)`: scrollbar-drag scrolling, clamped to
`[0, max_scroll]`.  (Python would divide by zero when `content_height = 0`;
that division is unreachable while dragging, since `max_scroll > 0` only after
a layout has set `content_height ≥ 40`.) -/
def handle_mouse_move (b : BState) (x y : Int) : BState :=
  if b.scrollbar_dragging ∧ b.max_scroll > 0 then
    let dy := y - b.scrollbar_drag_start_y
    let bar_h := b.content_h
    let thumb_h := max 20 (Int.fdiv (bar_h * b.content_h) b.content_height)
    let track_range := bar_h - thumb_h
    if track_range > 0 then
      let scroll_delta := Int.fdiv (dy * b.max_scroll) track_range
      let new_scroll := b.scrollbar_drag_start_scroll + scroll_delta
      let new_scroll := max 0 (min b.max_scroll new_scroll)
      { b with scroll_y := new_scroll }
    else b
  else b

/-! ## Verification helpers: concrete oracles, invariants, decompositions -/

/-- A concrete font oracle (constant advances, no kerning) used for closed
evaluations; the theorems that depend on metric properties only assume
non-negativity. -/
def font0 : FontOracle := ⟨fun _ _ => 8, fun _ _ _ => 0, fun _ => (12, -3, 2)⟩

/-- A network oracle serving a 302 → 200 redirect chain on `a.com`. -/
def netC4 : Net := fun p =>
  if p.path = lit "/old" then (302, lit "/new")
  else if p.path = lit "/new" then (200, lit "ok")
  else (404, lit "nope")

/-- A network oracle serving an empty 200 body everywhere. -/
def net8 : Net := fun _ => (200, [])

/-- A network oracle serving a fixed small 200 body everywhere. -/
def netIdle : Net := fun _ => (200, lit "hi")

/-- Header part of a redirect response with no `Location` header. -/
def hdrNoLoc : List Byte := bytesOf (lit "HTTP/1.0 302 Found\r\nServer: k")

/-- Body part of that response (a URL, as it happens). -/
def bodyNoLoc : List Byte := bytesOf (lit "http://b.com/t")

/-- The full Location-less redirect response. -/
def respNoLoc : List Byte := hdrNoLoc ++ HTTP_SEP ++ bodyNoLoc

/-- A network oracle that returns exactly what `parse_http_response` makes of
the Location-less redirect for `a.com`, and a plain page elsewhere. -/
def netC10 : Net := fun p =>
  if p.host = some (lit "a.com") then
    match parse_http_response respNoLoc with
    | .ok r => r
    | .error _ => (0, [])
  else (200, lit "hi")

/-- A browser state with one back-history entry, for witnesses. -/
def bC5 : BState :=
  { Browser.init false with url := lit "http://a.com/2", history := [lit "http://a.com/1"] }

/-- A network oracle for C5's counterexample: `/r` redirects to `/c`; every
other path serves a tiny 200 page. -/
def netC5cex : Net := fun p =>
  if p.path = lit "/r" then (302, lit "/c") else (200, lit "x")

/-- The navigation sequence reaching C5's counterexample state: navigate to
`/a`, then to `/r` (which redirects to `/c` — the redirect recursion leaves
the hop URL `/r` on the back stack), then to `/d`, then `back()` (returning to
`/c` with `/d` on the forward stack). -/
def c5run : Except NavStop BState :=
  (navigate netC5cex font0 3 (Browser.init false) (lit "http://a.com/a") false false).bind
    fun b => (navigate netC5cex font0 3 b (lit "http://a.com/r") false false).bind
    fun b => (navigate netC5cex font0 3 b (lit "http://a.com/d") false false).bind
    fun b => back netC5cex font0 3 b

/-- The scroll invariant: the offset lies in `[0, max_scroll]` and
`max_scroll` never exceeds `max 0 (content_height - viewport height)`. -/
def ScrollInv (b : BState) : Prop :=
  0 ≤ b.scroll_y ∧ b.scroll_y ≤ b.max_scroll ∧
    b.max_scroll ≤ max 0 (b.content_height - b.content_h)

/-- The tag of the bottom (root) element of the open-element stack. -/
def bottomTag (top : Element) (stk : List Element) : Str := (stk.getLastD top).tag

/-- Collapse a nonempty stack segment given as a list (top first). -/
def collapseChain : List Element → Element
  | [] => Element.new [] []
  | t :: ts => collapse t ts

/-- The code point carried by `measure_text`'s `prev_cp` after scanning `s`. -/
def lastCpAux (prev : Nat) : Str → Nat
  | [] => prev
  | c :: t => lastCpAux c.toNat t

/-! # Theorems

First general-purpose lemmas about the embedding, then one theorem per claim
(with witnesses and counterexamples as required). -/

theorem attachTop_tag (top p : Element) : (attachTop top p).tag = p.tag := rfl

theorem collapse_cons (top p : Element) (rest : List Element) :
    collapse top (p :: rest) = collapse (attachTop top p) rest := rfl

theorem closeTag_collapse (name : Str) (top : Element) (stk : List Element) :
    collapse (closeTag name top stk).1 (closeTag name top stk).2 = collapse top stk := by
  induction stk generalizing top with
  | nil => simp [closeTag, collapse]
  | cons p rest ih =>
    by_cases h : top.tag = name
    · simp [closeTag, h, collapse]
    · simp only [closeTag, h, if_false, ite_false, collapse_cons]
      exact ih (attachTop top p)

theorem closeTag_no_match (name : Str) (top : Element) (stk : List Element)
    (h : ∀ e ∈ (top :: stk).dropLast, e.tag ≠ name) :
    closeTag name top stk = (collapse top stk, []) := by
  induction stk generalizing top with
  | nil => simp [closeTag, collapse]
  | cons p rest ih =>
    have htop : top.tag ≠ name := by
      apply h
      rw [List.dropLast_cons₂]
      exact List.mem_cons_self _ _
    simp only [closeTag, htop, ite_false, collapse_cons]
    apply ih
    intro e he
    cases rest with
    | nil => simp at he
    | cons q rest2 =>
      rw [List.dropLast_cons₂] at he
      rcases List.mem_cons.mp he with rfl | he
      · have : p.tag ≠ name := by
          apply h
          rw [List.dropLast_cons₂, List.dropLast_cons₂]
          simp
        simpa [attachTop_tag] using this
      · apply h
        rw [List.dropLast_cons₂, List.dropLast_cons₂]
        exact List.mem_cons_of_mem _ (List.mem_cons_of_mem _ he)

theorem closeTag_match (name : Str) (top : Element) (stk : List Element)
    (pre : List Element) (m p : Element) (rest : List Element)
    (hdec : top :: stk = pre ++ m :: p :: rest)
    (hpre : ∀ e ∈ pre, e.tag ≠ name) (hm : m.tag = name) :
    closeTag name top stk = (attachTop (collapseChain (pre ++ [m])) p, rest) := by
  induction stk generalizing top pre with
  | nil =>
    exfalso
    have := congrArg List.length hdec
    simp at this
    omega
  | cons s0 stail ih =>
    cases pre with
    | nil =>
      simp only [List.nil_append] at hdec
      injection hdec with h1 h2
      subst h1
      injection h2 with h3 h4
      subst h3; subst h4
      simp [closeTag, hm, collapseChain, collapse]
    | cons t ts =>
      simp only [List.cons_append] at hdec
      injection hdec with h1 h2
      subst h1
      have htop : top.tag ≠ name := hpre top (by simp)
      cases ts with
      | nil =>
        simp only [List.nil_append] at h2
        injection h2 with h3 h4
        subst h3; subst h4
        simp [closeTag, htop, attachTop_tag, hm, collapseChain, collapse]
      | cons u us =>
        simp only [List.cons_append] at h2
        injection h2 with h3 h4
        subst h3; subst h4
        simp only [closeTag, htop, ite_false]
        rw [ih (attachTop top s0) (attachTop top s0 :: us) (by simp)
          (by
            intro e he
            rcases List.mem_cons.mp he with rfl | he
            · simpa [attachTop_tag] using hpre s0 (by simp)
            · exact hpre e (by simp [he]))]
        simp [collapseChain, List.cons_append, collapse_cons]

/-- Claim C2 counterexample: the claim says a closing tag matching nothing on
the stack is ignored with the stack unchanged, which would make
`<p><b></x>y` parse like `<p><b>y` (text `y` inside `<b>`).  In the code the
unmatched `</x>` pops `b` and `p`, so `y` attaches to the root instead. -/
theorem C2_cex :
    (parse_html (lit "<p><b></x>y")).text = lit "y" ∧
    (parse_html (lit "<p><b>y")).text = [] := by decide

/-- Claim C2 (amended): a closing tag with no match among the open elements
above the root pops the stack down to the root (implicitly closing every open
element, which stays attached); a closing tag with a match pops up to and
including the first matching element, popped intermediates staying attached.
In both cases the realised tree (`collapse`) is preserved, which is the formal
content of "popped elements stay attached to the tree". -/
theorem C2_amended (name : Str) (top : Element) (stk : List Element) :
    (collapse (closeTag name top stk).1 (closeTag name top stk).2 = collapse top stk) ∧
    ((∀ e ∈ (top :: stk).dropLast, e.tag ≠ name) →
      closeTag name top stk = (collapse top stk, [])) ∧
    (∀ pre m p rest, top :: stk = pre ++ m :: p :: rest →
      (∀ e ∈ pre, e.tag ≠ name) → m.tag = name →
      closeTag name top stk = (attachTop (collapseChain (pre ++ [m])) p, rest)) :=
  ⟨closeTag_collapse name top stk, closeTag_no_match name top stk,
   fun pre m p rest hdec hpre hm => closeTag_match name top stk pre m p rest hdec hpre hm⟩

/-- Witness for C2's amended theorem at a concrete stack: closing `x` with no
`x` open pops everything to the root, and closing `b` pops through the first
`b`. -/
theorem C2_amended_witness :
    closeTag (lit "x") (Element.new (lit "b") []) [Element.new (lit "p") [], Element.new (lit "root") []] =
      (collapse (Element.new (lit "b") []) [Element.new (lit "p") [], Element.new (lit "root") []], []) ∧
    closeTag (lit "b") (Element.new (lit "b") []) [Element.new (lit "p") [], Element.new (lit "root") []] =
      (attachTop (collapseChain ([] ++ [Element.new (lit "b") []])) (Element.new (lit "p") []),
        [Element.new (lit "root") []]) :=
  ⟨(C2_amended (lit "x") (Element.new (lit "b") []) _).2.1 (by decide),
   (C2_amended (lit "b") (Element.new (lit "b") []) _).2.2 []
     (Element.new (lit "b") []) (Element.new (lit "p") []) [Element.new (lit "root") []]
     rfl (by simp) (by decide)⟩

theorem resolve_url_pfx (base rel : Str) (h : hasSchemePfx rel = true) :
    resolve_url base rel = .ok rel := by
  simp [resolve_url, h]

theorem http_pfx_ne_about (url : Str) (h : (lit "http://").isPrefixOf url = true) :
    url ≠ lit "about:home" ∧ url ≠ lit "about:blank" := by
  constructor <;> (intro heq; subst heq; revert h; decide)

/-- Claim C1 counterexample: navigating to a URL with a non-numeric port is
claimed fatal to that fetch attempt only, with no exception escaping past the
fetch attempt; in the code the `ValueError` from `int(...)` inside `parse_url`
propagates uncaught through `fetch_url` and out of `navigate`. -/
theorem C1_cex :
    navigate netC4 font0 10 (Browser.init false) (lit "http://a.com:x/") false false =
      .error (.err .valueError) := by decide

/-- Claim C1 (amended): a malformed (non-numeric) port makes `parse_url`
raise; the exception propagates uncaught through `fetch_url` and out of
`navigate` (there is no handler), so the fetch attempt fails and the error
escapes past the fetch attempt to `navigate`'s caller. -/
theorem C1_amended (net : Net) (fo : FontOracle) (fuel : Nat) (b : BState)
    (url : Str) (e : PyErr)
    (hpfx : (lit "http://").isPrefixOf url = true)
    (hparse : parse_url url = .error e) :
    navigate net fo (fuel + 1) b url false false = .error (.err e) := by
  have hs : hasSchemePfx url = true := by simp [hasSchemePfx, hpfx]
  have hres : resolve_url b.url url = .ok url := resolve_url_pfx _ _ hs
  have hne := http_pfx_ne_about url hpfx
  have hf : fetch_url net url = .error e := by
    simp only [fetch_url, hne.1, hne.2, or_self, if_false, ite_false, hparse]
    rfl
  simp only [navigate, hres, hf]

/-- Witness for C1's amended theorem at the concrete malformed-port URL. -/
theorem C1_amended_witness :
    navigate net8 font0 1 (Browser.init false) (lit "http://a.com:x/") false false =
      .error (.err .valueError) :=
  C1_amended net8 font0 0 (Browser.init false) (lit "http://a.com:x/") .valueError
    (by decide) (by decide)

/-- Claim C4: from an empty controller, navigating to `http://a.com/old` with
the fetch returning 302 / `Location: /new` ends at `http://a.com/new` with
exactly one back-history entry (`http://a.com/old`); the redirect hop adds no
separate entry. -/
theorem C4_redirect_single_history :
    (navigate netC4 font0 10 (Browser.init false) (lit "http://a.com/old") false false).map
      (fun b => (b.url, b.history)) =
    .ok (lit "http://a.com/new", [lit "http://a.com/old"]) := by decide

theorem findChar_append (c : Char) (l r : Str) (h : c ∉ l) :
    findChar c (l ++ c :: r) = some l.length := by
  induction l with
  | nil => simp [findChar, findPat, List.isPrefixOf]
  | cons a t ih =>
    have hca : c ≠ a := fun hh => h (by simp [hh])
    have ht : c ∉ t := fun hh => h (by simp [hh])
    simp only [List.cons_append, findChar, findPat] at *
    have hpre : ¬ ([c].isPrefixOf (a :: (t ++ c :: r)) = true) := by
      simp [List.isPrefixOf]
      intro hh
      exact absurd hh hca
    simp [hpre, ih ht]

theorem decodeLoop_literal (s : Str) (f : Nat) (hamp : '&' ∉ s) (hf : s.length ≤ f) :
    decodeLoop f s = s := by
  induction s generalizing f with
  | nil => cases f <;> simp [decodeLoop]
  | cons c t ih =>
    cases f with
    | zero => simp at hf
    | succ f' =>
      have hc : ¬ (c = '&') := fun hh => hamp (by simp [hh])
      simp only [decodeLoop, hc, ite_false]
      rw [ih f' (fun hh => hamp (by simp [hh])) (by simpa using hf)]

theorem decode_literal_long (body : Str) (hsemi : ';' ∉ body) (hamp : '&' ∉ body)
    (hlen : 11 ≤ body.length) :
    decode_entities ('&' :: body ++ [';']) = '&' :: body ++ [';'] := by
  have hfind : findChar ';' (('&' :: body) ++ ';' :: []) = some ('&' :: body).length := by
    apply findChar_append
    intro hh
    rcases List.mem_cons.mp hh with hh | hh
    · exact absurd hh (by decide)
    · exact hsemi hh
  simp only [List.cons_append, List.length_cons] at hfind
  show decodeLoop (('&' :: body ++ [';']).length + 1) ('&' :: body ++ [';']) = _
  simp only [List.cons_append, List.length_cons, List.length_append, List.length_singleton]
  simp only [decodeLoop, if_pos rfl, hfind]
  have : ¬ (body.length + 1 < 12) := by omega
  simp only [this, ite_false, ite_self]
  congr 1
  apply decodeLoop_literal
  · intro hh
    rcases List.mem_append.mp hh with hh | hh
    · exact hamp hh
    · simp at hh
  · simp

theorem decode_ref_short (body : Str) (hsemi : ';' ∉ body) (hlen : body.length ≤ 10) :
    decode_entities ('&' :: body ++ [';']) =
      (match decodeRef body with
       | some out => out
       | none => '&' :: body ++ [';']) := by
  have hfind : findChar ';' (('&' :: body) ++ ';' :: []) = some ('&' :: body).length := by
    apply findChar_append
    intro hh
    rcases List.mem_cons.mp hh with hh | hh
    · exact absurd hh (by decide)
    · exact hsemi hh
  simp only [List.cons_append, List.length_cons] at hfind
  show decodeLoop (('&' :: body ++ [';']).length + 1) ('&' :: body ++ [';']) = _
  simp only [List.cons_append, List.length_cons, List.length_append, List.length_singleton]
  simp only [decodeLoop, if_pos rfl, hfind, ite_self]
  have hlt : body.length + 1 < 12 := by omega
  simp only [hlt, ite_true, if_pos hlt]
  have htake : ('&' :: (body ++ [';'])).take (body.length + 1) = '&' :: body := by
    have := List.take_left body [';']
    simp [List.take_cons, this]
  have hdrop : ('&' :: (body ++ [';'])).drop (body.length + 1 + 1) = [] := by
    have : ('&' :: (body ++ [';'])).length = body.length + 1 + 1 := by simp
    rw [← this, List.drop_length]
  have htake2 : ('&' :: (body ++ [';'])).take (body.length + 1 + 1) = '&' :: (body ++ [';']) := by
    have : ('&' :: (body ++ [';'])).length = body.length + 1 + 1 := by simp
    rw [← this, List.take_length]
  have hnil : ∀ f, decodeLoop f ([] : Str) = [] := fun f => by cases f <;> rfl
  rw [htake, hdrop, htake2, hnil]
  simp only [List.drop_one, List.tail_cons, List.append_nil]

/-- Claim C7 counterexample: the claim puts the literal-pass-through boundary
at body length 11 ("bodies of up to 11 characters are decoded when
recognized"), but `&#x000000041;` — a recognized numeric reference whose body
`#x000000041` has exactly 11 characters — passes through literally instead of
decoding to `A` (the code tests `end - i < 12`, i.e. body length at most 10). -/
theorem C7_cex :
    decode_entities (lit "&#x000000041;") = lit "&#x000000041;" ∧
    decode_entities (lit "&#x000000041;") ≠ lit "A" := by decide

/-- Claim C7 (amended): `&amp;&lt;b&gt;` decodes to `&<b>`, both `&#65;` and
`&#x41;` decode to `A`, a reference without `;` or with an unrecognized name
passes through literally; and a reference passes through literally exactly
when its body before the `;` exceeds 10 characters (bodies of up to 10
characters are decoded when recognized). -/
theorem C7_amended :
    (decode_entities (lit "&amp;&lt;b&gt;") = lit "&<b>" ∧
     decode_entities (lit "&#65;") = lit "A" ∧
     decode_entities (lit "&#x41;") = lit "A" ∧
     decode_entities (lit "&foo") = lit "&foo" ∧
     decode_entities (lit "&zzzz;") = lit "&zzzz;") ∧
    (∀ body : Str, ';' ∉ body → '&' ∉ body → 11 ≤ body.length →
      decode_entities ('&' :: body ++ [';']) = '&' :: body ++ [';']) ∧
    (∀ body : Str, ';' ∉ body → body.length ≤ 10 →
      decode_entities ('&' :: body ++ [';']) =
        (match decodeRef body with
         | some out => out
         | none => '&' :: body ++ [';'])) :=
  ⟨by decide, decode_literal_long, decode_ref_short⟩

/-- Witness for C7's amended theorem: the 11-character recognized body passes
through literally, and the 4-character body `#x41` decodes via `decodeRef`. -/
theorem C7_amended_witness :
    decode_entities ('&' :: lit "#x000000041" ++ [';']) = '&' :: lit "#x000000041" ++ [';'] ∧
    decode_entities ('&' :: lit "#x41" ++ [';']) =
      (match decodeRef (lit "#x41") with
       | some out => out
       | none => '&' :: lit "#x41" ++ [';']) :=
  ⟨C7_amended.2.1 (lit "#x000000041") (by decide) (by decide) (by decide),
   C7_amended.2.2 (lit "#x41") (by decide) (by decide)⟩

theorem C3_parse_no_sep (data : List Byte) (h : findPat HTTP_SEP data = none) :
    parse_http_response data = .ok (0, lit "Invalid HTTP response") := by
  simp [parse_http_response, h]

theorem C3_error_iff (data : List Byte) (e : PyErr)
    (h : parse_http_response data = .error e) :
    ∃ tok, statusToken data = some tok ∧ pyIntDec tok = none := by
  cases hfind : findPat HTTP_SEP data with
  | none => rw [C3_parse_no_sep data hfind] at h; exact absurd h (by simp)
  | some sep =>
    simp only [parse_http_response, hfind] at h
    rcases hparts : pySplitPat [' '] ((pySplitPat (lit "\r\n") ((data.take sep).map chrB)).headD []) with _ | ⟨p0, _ | ⟨p1, ps⟩⟩
    · rw [hparts] at h; simp [redirectCodes] at h
    · rw [hparts] at h; simp [redirectCodes] at h
    · rw [hparts] at h
      cases hint : pyIntDec p1 with
      | none =>
        refine ⟨p1, ?_, hint⟩
        simp only [statusToken, hfind]
        rw [hparts]
      | some v =>
        simp only [hint] at h
        split at h
        · split at h <;> simp at h
        · simp at h

theorem C3_status_ok (data : List Byte) (tok : Str) (st : Int)
    (htok : statusToken data = some tok) (hint : pyIntDec tok = some st) :
    ∃ body, parse_http_response data = .ok (st, body) := by
  cases hfind : findPat HTTP_SEP data with
  | none => simp [statusToken, hfind] at htok
  | some sep =>
    simp only [statusToken, hfind] at htok
    rcases hparts : pySplitPat [' '] ((pySplitPat (lit "\r\n") ((data.take sep).map chrB)).headD []) with _ | ⟨p0, _ | ⟨p1, ps⟩⟩ <;> rw [hparts] at htok <;> simp at htok
    subst htok
    simp only [parse_http_response, hfind]
    rw [hparts]
    simp only [hint]
    by_cases hred : st ∈ redirectCodes
    · simp only [hred, ite_true]
      cases hloc : findLocation (pySplitPat (lit "\r\n") ((data.take sep).map chrB)).tail with
      | none => exact ⟨_, rfl⟩
      | some line => exact ⟨_, rfl⟩
    · simp only [hred, ite_false]
      exact ⟨_, rfl⟩

theorem C3_missing_token (data : List Byte) (sep : Nat)
    (hfind : findPat HTTP_SEP data = some sep) (htok : statusToken data = none) :
    parse_http_response data = .ok (0, (data.drop (sep + 4)).map chrB) := by
  simp only [statusToken, hfind] at htok
  rcases hparts : pySplitPat [' '] ((pySplitPat (lit "\r\n") ((data.take sep).map chrB)).headD []) with _ | ⟨p0, _ | ⟨p1, ps⟩⟩ <;> rw [hparts] at htok
  · simp only [parse_http_response, hfind]
    rw [hparts]
    simp [redirectCodes]
  · simp only [parse_http_response, hfind]
    rw [hparts]
    simp [redirectCodes]
  · simp at htok

/-- Claim C3 counterexample: the claim says HTTP response parsing never
throws, including for a non-numeric status token; but `int(parts[1])` raises
on `HTTP/1.0 ABC` and the error propagates out of `parse_http_response`. -/
theorem C3_cex :
    parse_http_response (bytesOf (lit "HTTP/1.0 ABC\r\n\r\nbody")) = .error .valueError := by
  decide

/-- Claim C3 (amended): a byte sequence without the CRLFCRLF separator parses
to status 0 with a diagnostic message; when the separator is present but the
status line has no second token, parsing returns status 0 with the decoded
body; parsing can only raise when the status line has a second token that is
non-numeric; and whenever the second token is numeric its value is returned as
the status.  (A present but non-numeric token raises — that is the single
point on which the original claim fails.) -/
theorem C3_amended :
    (∀ data : List Byte, findPat HTTP_SEP data = none →
        parse_http_response data = .ok (0, lit "Invalid HTTP response")) ∧
    (∀ (data : List Byte) (sep : Nat), findPat HTTP_SEP data = some sep →
        statusToken data = none →
        parse_http_response data = .ok (0, (data.drop (sep + 4)).map chrB)) ∧
    (∀ (data : List Byte) (e : PyErr), parse_http_response data = .error e →
        ∃ tok, statusToken data = some tok ∧ pyIntDec tok = none) ∧
    (∀ (data : List Byte) (tok : Str) (st : Int), statusToken data = some tok →
        pyIntDec tok = some st → ∃ body, parse_http_response data = .ok (st, body)) :=
  ⟨C3_parse_no_sep, C3_missing_token, C3_error_iff, C3_status_ok⟩

/-- Witness for C3's amended theorem: a concrete separator-less byte sequence
parses to the synthetic malformed-response result, and a concrete response
whose status line has no second token (no space) parses to status 0 with the
decoded body. -/
theorem C3_amended_witness :
    parse_http_response (bytesOf (lit "no separator here")) =
      .ok (0, lit "Invalid HTTP response") ∧
    parse_http_response (bytesOf (lit "HTTP/1.0\r\n\r\nok")) = .ok (0, lit "ok") :=
  ⟨C3_amended.1 (bytesOf (lit "no separator here")) (by decide),
   (C3_amended.2.1 (bytesOf (lit "HTTP/1.0\r\n\r\nok")) 8 (by decide) (by decide)).trans
     (by decide)⟩

theorem findLocation_none (L : List Str)
    (h : ∀ l ∈ L, ¬ ((lit "location:").isPrefixOf (pyLower l) = true)) :
    findLocation L = none := by
  induction L with
  | nil => rfl
  | cons l rest ih =>
    simp only [findLocation, h l (by simp), ite_false]
    exact ih (fun x hx => h x (by simp [hx]))

theorem C10_partA (hb body : List Byte) (sline : Str) (hlines : List Str)
    (p0 tok : Str) (ps : List Str) (st : Int)
    (hfind : findPat HTTP_SEP (hb ++ HTTP_SEP ++ body) = some hb.length)
    (hsplit : pySplitPat (lit "\r\n") (hb.map chrB) = sline :: hlines)
    (hparts : pySplitPat [' '] sline = p0 :: tok :: ps)
    (hint : pyIntDec tok = some st)
    (hred : st ∈ redirectCodes)
    (hloc : ∀ l ∈ hlines, ¬ ((lit "location:").isPrefixOf (pyLower l) = true)) :
    parse_http_response (hb ++ HTTP_SEP ++ body) = .ok (st, body.map chrB) := by
  have htake : (hb ++ HTTP_SEP ++ body).take hb.length = hb := by
    rw [List.append_assoc]
    exact List.take_left hb _
  have hdrop : (hb ++ HTTP_SEP ++ body).drop (hb.length + 4) = body := by
    have h4 : (hb ++ HTTP_SEP).length = hb.length + 4 := by simp [HTTP_SEP]
    rw [← h4, List.drop_left]
  simp only [parse_http_response, hfind, htake, hdrop, hsplit, List.headD_cons, List.tail_cons]
  rw [hparts]
  simp only [hint]
  rw [if_pos hred, findLocation_none hlines hloc]

/-- Claim C10: a redirect-status response whose well-framed headers contain no
`Location` line falls through to the normal path and yields
`(status, decoded full body)`; and the Navigation Controller then recurses
`navigate()` with that entire body text as the redirect target (shown on a
concrete Location-less 302 whose body is a URL: the final state's URL is that
body, with the single originating history entry). -/
theorem C10_redirect_no_location :
    (∀ (hb body : List Byte) (sline : Str) (hlines : List Str)
        (p0 tok : Str) (ps : List Str) (st : Int),
      findPat HTTP_SEP (hb ++ HTTP_SEP ++ body) = some hb.length →
      pySplitPat (lit "\r\n") (hb.map chrB) = sline :: hlines →
      pySplitPat [' '] sline = p0 :: tok :: ps →
      pyIntDec tok = some st →
      st ∈ redirectCodes →
      (∀ l ∈ hlines, ¬ ((lit "location:").isPrefixOf (pyLower l) = true)) →
      parse_http_response (hb ++ HTTP_SEP ++ body) = .ok (st, body.map chrB)) ∧
    (navigate netC10 font0 10 (Browser.init false) (lit "http://a.com/x") false false).map
      (fun b => (b.url, b.history)) =
    .ok (lit "http://b.com/t", [lit "http://a.com/x"]) :=
  ⟨C10_partA, by decide⟩

/-- Witness for C10: the concrete Location-less 302 response decomposes as
header/separator/body, and parsing returns the status with the full decoded
body. -/
theorem C10_witness :
    parse_http_response (hdrNoLoc ++ HTTP_SEP ++ bodyNoLoc) = .ok (302, bodyNoLoc.map chrB) :=
  C10_redirect_no_location.1 hdrNoLoc bodyNoLoc (lit "HTTP/1.0 302 Found") [lit "Server: k"]
    (lit "HTTP/1.0") (lit "302") [lit "Found"] 302 (by decide) (by decide) (by decide)
    (by decide) (by decide) (by decide)

theorem bottomTag_cons (x q : Element) (r2 : List Element) :
    bottomTag x (q :: r2) = bottomTag q r2 := by
  unfold bottomTag
  rw [List.getLastD_cons]

theorem bottomTag_retag (top top' : Element) (stk : List Element)
    (h : top'.tag = top.tag) : bottomTag top' stk = bottomTag top stk := by
  cases stk with
  | nil => exact h
  | cons q r2 => rw [bottomTag_cons, bottomTag_cons]

theorem bottomTag_push (elem top : Element) (stk : List Element) :
    bottomTag elem (top :: stk) = bottomTag top stk := bottomTag_cons elem top stk

theorem bottomTag_collapse (top : Element) (stk : List Element) :
    (collapse top stk).tag = bottomTag top stk := by
  induction stk generalizing top with
  | nil => rfl
  | cons p rest ih =>
    rw [collapse_cons, ih]
    cases rest with
    | nil => rw [bottomTag_cons]; exact attachTop_tag top p
    | cons q r2 => rw [bottomTag_cons, bottomTag_cons, bottomTag_cons]

theorem bottomTag_closeTag (name : Str) (top : Element) (stk : List Element) :
    bottomTag (closeTag name top stk).1 (closeTag name top stk).2 = bottomTag top stk := by
  induction stk generalizing top with
  | nil => simp [closeTag]
  | cons p rest ih =>
    by_cases h : top.tag = name
    · simp only [closeTag, h, ite_true]
      rw [bottomTag_cons]
      exact bottomTag_retag p _ rest (attachTop_tag top p)
    · simp only [closeTag, h, ite_false]
      rw [ih (attachTop top p), bottomTag_cons]
      exact bottomTag_retag p _ rest (attachTop_tag top p)

theorem parseLoop_tag (fuel : Nat) (s : Str) (top : Element) (stk : List Element) :
    (parseLoop fuel top stk s).tag = bottomTag top stk := by
  induction fuel generalizing s top stk with
  | zero => exact bottomTag_collapse top stk
  | succ f ih =>
    cases s with
    | nil => exact bottomTag_collapse top stk
    | cons c rest =>
      simp only [parseLoop]
      split
      · split
        · exact bottomTag_collapse top stk
        · split
          · exact ih _ _ _
          · split
            · rw [ih]
              exact bottomTag_closeTag _ top stk
            · split
              · rw [ih]
                exact bottomTag_push _ top stk
              · rw [ih]
                exact bottomTag_retag top _ stk rfl
      · split
        · split
          · rw [ih]
            exact bottomTag_retag top _ stk rfl
          · rw [ih]
            exact bottomTag_retag top _ stk rfl
        · split
          · rw [ih]
          · rw [ih]

theorem parseLoop_fuel (g : Nat) : ∀ (h : Nat) (s : Str) (top : Element) (stk : List Element),
    s.length < g → s.length < h → parseLoop g top stk s = parseLoop h top stk s := by
  induction g with
  | zero => intro h s top stk hg _; exact absurd hg (Nat.not_lt_zero _)
  | succ g ih =>
    intro h s top stk hg hh
    cases h with
    | zero => exact absurd hh (Nat.not_lt_zero _)
    | succ h2 =>
      cases s with
      | nil => rfl
      | cons c rest =>
        have hrest : rest.length < g := by simp at hg; omega
        have hrest2 : rest.length < h2 := by simp at hh; omega
        have hd1 : ∀ n, (rest.drop n).length < g := fun n => by
          have := List.length_drop n rest
          omega
        have hd2 : ∀ n, (rest.drop n).length < h2 := fun n => by
          have := List.length_drop n rest
          omega
        simp only [parseLoop]
        split
        · split
          · rfl
          · split
            · exact ih _ _ _ _ (hd1 _) (hd2 _)
            · split
              · exact ih _ _ _ _ (hd1 _) (hd2 _)
              · split
                · exact ih _ _ _ _ (hd1 _) (hd2 _)
                · exact ih _ _ _ _ (hd1 _) (hd2 _)
        · split
          · split
            · exact ih _ _ _ _ (by simp; omega) (by simp; omega)
            · exact ih _ _ _ _ (hd1 _) (hd2 _)
          · split
            · exact ih _ _ _ _ (by simp; omega) (by simp; omega)
            · exact ih _ _ _ _ (hd1 _) (hd2 _)

/-- Claim C9: the markup parser is total.  Totality of `parse_html`,
`parse_attrs` and `decode_entities` is expressed by their embedding as plain
(`Except`-free) functions — the only operations that can raise in Python
(`int`, `chr`) sit inside the source's own `try/except` and are modelled as
handled `Option`s.  The theorem adds the two non-definitional parts: the loop
always returns the (root-tagged) document tree for every input, and the fuel
in the model is irrelevant once it exceeds the input length — i.e. the source
loop, which consumes at least one character per iteration, terminates. -/
theorem C9_parser_total :
    (∀ html : Str, (parse_html html).tag = lit "root") ∧
    (∀ (html : Str) (fuel : Nat), html.length < fuel →
      parseLoop fuel (Element.new (lit "root") []) [] html = parse_html html) := by
  constructor
  · intro html
    show (parseLoop (html.length + 1) (Element.new (lit "root") []) [] html).tag = lit "root"
    rw [parseLoop_tag]
    decide
  · intro html fuel hf
    exact parseLoop_fuel fuel (html.length + 1) html _ [] hf (by omega)

/-- Witness for C9: any sufficiently large fuel parses `<p>` identically. -/
theorem C9_witness :
    parseLoop 10 (Element.new (lit "root") []) [] (lit "<p>") = parse_html (lit "<p>") :=
  C9_parser_total.2 (lit "<p>") 10 (by decide)

theorem navigate_scrollInv (net : Net) (fo : FontOracle) :
    ∀ (fuel : Nat) (b : BState) (url : Str) (fb ff : Bool) (b' : BState),
      navigate net fo fuel b url fb ff = .ok b' → ScrollInv b' := by
  intro fuel
  induction fuel with
  | zero => intro b url fb ff b' h; exact absurd h (by simp [navigate])
  | succ f ih =>
    intro b url fb ff b' h
    simp only [navigate] at h
    split at h
    · exact absurd h (by simp)
    · split at h
      · exact absurd h (by simp)
      · split at h
        · exact ih _ _ _ _ _ h
        · simp only [Except.ok.injEq] at h
          subst h
          refine ⟨le_refl 0, le_max_left _ _, le_of_eq rfl⟩

theorem scrollInv_set_scroll (b : BState) (v : Int) (h0 : 0 ≤ v) (h1 : v ≤ b.max_scroll)
    (h2 : b.max_scroll ≤ max 0 (b.content_height - b.content_h)) :
    ScrollInv { b with scroll_y := v } := ⟨h0, h1, h2⟩

theorem handle_key_scrollInv (net : Net) (fo : FontOracle) (fuel : Nat) (b : BState)
    (key : Int) (r : BState × Bool) (hinv : ScrollInv b) (hch : 0 ≤ b.content_h)
    (h : handle_key net fo fuel b key = .ok r) : ScrollInv r.1 := by
  obtain ⟨h0, h1, h2⟩ := hinv
  have hms : (0 : Int) ≤ b.max_scroll := h0.trans h1
  simp only [handle_key] at h
  split at h
  · split at h
    · split at h
      · exact absurd h (by simp)
      · next bb heq =>
        simp only [Except.ok.injEq] at h
        subst h
        exact navigate_scrollInv net fo fuel _ _ _ _ _ heq
    · split at h
      · simp only [Except.ok.injEq] at h; subst h; exact ⟨h0, h1, h2⟩
      · split at h
        · split at h
          · simp only [Except.ok.injEq] at h; subst h; exact ⟨h0, h1, h2⟩
          · simp only [Except.ok.injEq] at h; subst h; exact ⟨h0, h1, h2⟩
        · split at h
          · simp only [Except.ok.injEq] at h; subst h; exact ⟨h0, h1, h2⟩
          · simp only [Except.ok.injEq] at h; subst h; exact ⟨h0, h1, h2⟩
  · split at h
    · simp only [Except.ok.injEq] at h; subst h; exact ⟨h0, h1, h2⟩
    · split at h
      · simp only [Except.ok.injEq] at h; subst h
        exact scrollInv_set_scroll b _ (le_max_left _ _) (max_le hms (by omega)) h2
      · split at h
        · simp only [Except.ok.injEq] at h; subst h
          exact scrollInv_set_scroll b _ (le_min hms (by omega)) (min_le_left _ _) h2
        · split at h
          · simp only [Except.ok.injEq] at h; subst h
            exact scrollInv_set_scroll b _ (le_max_left _ _) (max_le hms (by omega)) h2
          · split at h
            · simp only [Except.ok.injEq] at h; subst h
              exact scrollInv_set_scroll b _ (le_min hms (by omega)) (min_le_left _ _) h2
            · simp only [Except.ok.injEq] at h; subst h; exact ⟨h0, h1, h2⟩

theorem mouse_move_scrollInv (b : BState) (x y : Int) (hinv : ScrollInv b) :
    ScrollInv (handle_mouse_move b x y) := by
  obtain ⟨h0, h1, h2⟩ := hinv
  have hms : (0 : Int) ≤ b.max_scroll := h0.trans h1
  simp only [handle_mouse_move]
  split
  · split
    · exact ⟨le_max_left _ _, max_le hms (min_le_left _ _), h2⟩
    · exact ⟨h0, h1, h2⟩
  · exact ⟨h0, h1, h2⟩

set_option maxHeartbeats 1000000 in
theorem resize_scrollInv (fo : FontOracle) (b : BState) (w hh : Int) (hinv : ScrollInv b)
    (hhtml : b.current_html ≠ []) :
    ScrollInv (handle_resize fo b w hh) := by
  obtain ⟨h0, h1, h2⟩ := hinv
  simp only [handle_resize]
  rw [if_pos hhtml]
  generalize layout_document fo (b.current_html.length + 1) (w - MARGIN * 2 - SCROLLBAR_W)
    (parse_html b.current_html) = L
  split <;> split
  · exact ⟨le_max_left _ _, le_refl _, le_refl _⟩
  · next hle => exact ⟨h0, not_lt.mp hle, le_refl _⟩
  · exact ⟨le_max_left _ _, le_refl _, le_refl _⟩
  · next hle => exact ⟨h0, not_lt.mp hle, le_refl _⟩

/-- Claim C8 counterexample: two concrete violations of the scroll bound.
First, a resize while the retained markup is the empty string skips the
re-clamp: shrink the window, load an empty 200 page, scroll down, then grow
the window — the offset (20) exceeds `max 0 (content_height − viewport)` (0).
Second, page-down with a negative viewport height (window shorter than the
chrome) drives the offset below 0. -/
theorem C8_cex :
    ((do
        let b1 ← navigate net8 font0 5 (handle_resize font0 (Browser.init false) 640 30)
          (lit "file:///e") false false
        let kb ← handle_key net8 font0 5 b1 0x101
        pure (handle_resize font0 kb.1 640 480)) : Except NavStop BState).map
      (fun b => decide (b.scroll_y ≤ max 0 (b.content_height - b.content_h))) = .ok false ∧
    (handle_key net8 font0 1 (handle_resize font0 (Browser.init false) 640 20) 0x10A).map
      (fun r => decide (0 ≤ r.1.scroll_y)) = .ok false := by
  constructor
  · decide
  · decide

/-- Claim C8 (amended): define the invariant `ScrollInv` — offset in
`[0, max_scroll]` with `max_scroll ≤ max 0 (content_height − viewport
height)`, which implies the claimed bound.  It holds initially, is
(re)established unconditionally by every navigation that returns, and is
preserved by scrollbar dragging always, by key scrolling provided the
viewport height is nonnegative, and by a resize provided the retained markup
is nonempty.  (The counterexample shows the two excluded cases really fail:
an empty-markup resize skips the clamp, and page-down with a negative
viewport height goes below 0.) -/
theorem C8_amended :
    (∀ b : BState, ScrollInv b →
        0 ≤ b.scroll_y ∧ b.scroll_y ≤ max 0 (b.content_height - b.content_h)) ∧
    (∀ k : Bool, ScrollInv (Browser.init k)) ∧
    (∀ (net : Net) (fo : FontOracle) (fuel : Nat) (b : BState) (url : Str)
        (fb ff : Bool) (b' : BState),
        navigate net fo fuel b url fb ff = .ok b' → ScrollInv b') ∧
    (∀ (net : Net) (fo : FontOracle) (fuel : Nat) (b : BState) (key : Int)
        (r : BState × Bool), ScrollInv b → 0 ≤ b.content_h →
        handle_key net fo fuel b key = .ok r → ScrollInv r.1) ∧
    (∀ (b : BState) (x y : Int), ScrollInv b → ScrollInv (handle_mouse_move b x y)) ∧
    (∀ (fo : FontOracle) (b : BState) (w hh : Int), ScrollInv b →
        b.current_html ≠ [] → ScrollInv (handle_resize fo b w hh)) := by
  refine ⟨fun b hb => ⟨hb.1, hb.2.1.trans hb.2.2⟩, fun k => ?_,
    fun net fo fuel b url fb ff b' h => navigate_scrollInv net fo fuel b url fb ff b' h,
    fun net fo fuel b key r hb hch h => handle_key_scrollInv net fo fuel b key r hb hch h,
    fun b x y hb => mouse_move_scrollInv b x y hb,
    fun fo b w hh hb hh2 => resize_scrollInv fo b w hh hb hh2⟩
  cases k <;> exact ⟨by decide, by decide, by decide⟩

/-- Witness for C8's amended theorem: dragging from the initial state keeps
the invariant, whose bound holds concretely. -/
theorem C8_amended_witness :
    ScrollInv (handle_mouse_move (Browser.init false) 5 7) :=
  C8_amended.2.2.2.2.1 (Browser.init false) 5 7 ⟨by decide, by decide, by decide⟩

theorem navigate_empty_url_ok (net : Net) (fo : FontOracle) (fuel : Nat) (b : BState)
    (url0 u : Str) (fb ff : Bool) (s : Int) (body : Str)
    (hurl : b.url = [])
    (hres : resolve_url b.url url0 = .ok u)
    (hfetch : fetch_url net u = .ok (s, body))
    (hnored : s ∉ redirectCodes) :
    ∃ b', navigate net fo (fuel + 1) b url0 fb ff = .ok b' ∧
      b'.url = u ∧ b'.history = b.history ∧ b'.forward_history = b.forward_history := by
  simp only [navigate, hres]
  rw [if_neg (by simp [hurl])]
  simp only [hfetch]
  rw [if_neg hnored]
  exact ⟨_, rfl, rfl, rfl, rfl⟩

theorem C5_round_trip_aux (net : Net) (fo : FontOracle) (f1 f2 : Nat) (b : BState)
    (h0 : List Str) (p : Str) (s1 s2 : Int) (b1 b2 : Str)
    (hh : b.history = h0 ++ [p])
    (hp : hasSchemePfx p = true)
    (hu : hasSchemePfx b.url = true)
    (hf1 : fetch_url net p = .ok (s1, b1)) (hn1 : s1 ∉ redirectCodes)
    (hf2 : fetch_url net b.url = .ok (s2, b2)) (hn2 : s2 ∉ redirectCodes) :
    ((back net fo (f1 + 1) b).bind (fun x => forward net fo (f2 + 1) x)).map
      (fun x => (x.url, x.history, x.forward_history)) =
      .ok (b.url, b.history, b.forward_history) := by
  have hlen : b.history.length > 0 := by rw [hh]; simp
  simp only [back, if_pos hlen, hh, List.getLast?_concat, List.dropLast_concat, Option.getD_some]
  obtain ⟨bb, hbbeq, hbburl, hbbhist, hbbfwd⟩ :=
    navigate_empty_url_ok net fo f1
      { b with forward_history := b.forward_history ++ [b.url], history := h0, url := [] }
      p p true false s1 b1 rfl (resolve_url_pfx _ _ hp) hf1 hn1
  rw [hbbeq]
  have hbbfwd2 : bb.forward_history = b.forward_history ++ [b.url] := hbbfwd
  have hbbhist2 : bb.history = h0 := hbbhist
  rw [if_pos (show (h0 ++ [p]).length > 0 by simp)]
  have hbind : ((Except.ok bb : Except NavStop BState).bind fun x => forward net fo (f2 + 1) x) =
      forward net fo (f2 + 1) bb := rfl
  rw [hbind]
  simp only [forward, hbbfwd2, hbbhist2, hbburl]
  rw [if_pos (by simp)]
  rw [List.getLast?_concat, List.dropLast_concat, Option.getD_some]
  obtain ⟨bf, heq2, hfurl, hfhist, hffwd⟩ :=
    navigate_empty_url_ok net fo f2
      { bb with history := h0 ++ [p], forward_history := b.forward_history, url := [] }
      b.url b.url false true s2 b2 rfl (resolve_url_pfx _ _ hu) hf2 hn2
  rw [heq2]
  have hfhist2 : bf.history = h0 ++ [p] := hfhist
  have hffwd2 : bf.forward_history = b.forward_history := hffwd
  simp only [Except.map, hfurl, hfhist2, hffwd2, hh]
theorem except_bind_error {ε α β : Type} (e : ε) (f : α → Except ε β) :
    ((Except.error e : Except ε α) >>= f) = .error e := rfl

theorem except_bind_ok {ε α β : Type} (a : α) (f : α → Except ε β) :
    ((Except.ok a : Except ε α) >>= f) = f a := rfl

theorem resolve_url_ne_nil (base rel u : Str) (h : resolve_url base rel = .ok u) : u ≠ [] := by
  intro hnil
  subst hnil
  simp only [resolve_url] at h
  split at h
  · next hpfx =>
    simp only [Except.ok.injEq] at h
    rw [h] at hpfx
    exact absurd hpfx (by decide)
  · cases hp : parse_url base with
    | error e => rw [hp] at h; rw [except_bind_error] at h; exact absurd h (by simp)
    | ok pp =>
      rw [hp] at h
      rw [except_bind_ok] at h
      split at h
      · simp only [Except.ok.injEq] at h
        simp [lit] at h
      · simp only [Except.ok.injEq] at h
        rcases List.append_eq_nil.mp h with ⟨h1, -⟩
        split at h1 <;> simp [lit, List.append_eq_nil] at h1

theorem navigate_plain_clears (net : Net) (fo : FontOracle) :
    ∀ (fuel : Nat) (b : BState) (url : Str) (b' : BState), b.url ≠ [] →
      navigate net fo fuel b url false false = .ok b' → b'.forward_history = [] := by
  intro fuel
  induction fuel with
  | zero => intro b url b' _ h; exact absurd h (by simp [navigate])
  | succ f ih =>
    intro b url b' hne h
    simp only [navigate] at h
    split at h
    · exact absurd h (by simp)
    · next u hres =>
      rw [if_pos hne] at h
      simp only [Bool.false_eq_true, if_false, not_false_iff, if_true] at h
      split at h
      · exact absurd h (by simp)
      · split at h
        · refine ih _ _ _ ?_ h
          exact resolve_url_ne_nil b.url url u hres
        · simp only [Except.ok.injEq] at h
          subst h
          rfl

/-- Claim C5 counterexample: `back()` then `forward()` does not restore both
history stacks for every reachable state.  Navigating `/a`, then `/r` (which
redirects to `/c`, leaving the hop URL `/r` in the back stack), then `/d`,
then `back()` reaches the state url = `/c`, history = `[/a, /r]`,
forward = `[/d]`.  A further `back()` refetches `/r`, whose redirect makes
`navigate` recurse as a *plain* navigation: it clears the forward stack, so
the subsequent `forward()` is a no-op and `/d` is lost — url and history are
restored but the forward stack is `[]`, not `[/d]`. -/
theorem C5_cex :
    (c5run.map fun b => (b.url, b.history, b.forward_history)) =
      .ok (lit "http://a.com/c",
        [lit "http://a.com/a", lit "http://a.com/r"], [lit "http://a.com/d"]) ∧
    (((c5run.bind fun b => back netC5cex font0 3 b).bind
        fun b => forward netC5cex font0 3 b).map
      fun b => (b.url, b.history, b.forward_history)) =
      .ok (lit "http://a.com/c",
        [lit "http://a.com/a", lit "http://a.com/r"], []) :=
  ⟨by decide, by decide⟩

/-- Claim C5 (amended): for a state whose back-stack is non-empty (its entries
being the absolute URLs navigation stores), provided the refetches performed
by `back()` and `forward()` return non-redirect statuses, `back()` followed by
`forward()` restores the prior current URL and both history stacks exactly —
the proviso is forced: a history entry whose refetch redirects makes `back()`
recurse through a plain `navigate`, which clears the forward stack (see the
counterexample).  And any plain `navigate()` call (neither from-back nor
from-forward) made while a current URL exists leaves the forward-stack
cleared — including through redirect chains. -/
theorem C5_history_round_trip :
    (∀ (net : Net) (fo : FontOracle) (f1 f2 : Nat) (b : BState) (h0 : List Str)
        (p : Str) (s1 s2 : Int) (b1 b2 : Str),
      b.history = h0 ++ [p] →
      hasSchemePfx p = true →
      hasSchemePfx b.url = true →
      fetch_url net p = .ok (s1, b1) → s1 ∉ redirectCodes →
      fetch_url net b.url = .ok (s2, b2) → s2 ∉ redirectCodes →
      ((back net fo (f1 + 1) b).bind (fun x => forward net fo (f2 + 1) x)).map
        (fun x => (x.url, x.history, x.forward_history)) =
        .ok (b.url, b.history, b.forward_history)) ∧
    (∀ (net : Net) (fo : FontOracle) (fuel : Nat) (b : BState) (url : Str) (b' : BState),
      b.url ≠ [] → navigate net fo fuel b url false false = .ok b' →
      b'.forward_history = []) :=
  ⟨fun net fo f1 f2 b h0 p s1 s2 b1 b2 hh hp hu hf1 hn1 hf2 hn2 =>
      C5_round_trip_aux net fo f1 f2 b h0 p s1 s2 b1 b2 hh hp hu hf1 hn1 hf2 hn2,
   fun net fo fuel b url b' => navigate_plain_clears net fo fuel b url b'⟩

/-- Witness for C5 on a concrete two-entry history. -/
theorem C5_witness :
    ((back netIdle font0 3 bC5).bind (fun x => forward netIdle font0 3 x)).map
      (fun x => (x.url, x.history, x.forward_history)) =
      .ok (bC5.url, bC5.history, bC5.forward_history) :=
  C5_history_round_trip.1 netIdle font0 2 2 bC5 [] (lit "http://a.com/1") 200 200
    (lit "hi") (lit "hi") (by decide) (by decide) (by decide) (by decide) (by decide)
    (by decide) (by decide)


theorem measureAux_acc (fo : FontOracle) (size : Int) (s : Str) :
    ∀ (prev : Nat) (acc : Int),
      measureAux fo size prev acc s = acc + measureAux fo size prev 0 s := by
  induction s with
  | nil => intro prev acc; simp [measureAux]
  | cons c t ih =>
    intro prev acc
    simp only [measureAux]
    rw [ih c.toNat]
    conv_rhs => rw [ih c.toNat]
    by_cases hP : prev ≠ 0
    · simp only [if_pos hP]
      ring
    · simp only [if_neg hP]
      ring

theorem measureAux_nonneg (fo : FontOracle) (size : Int)
    (hadv : ∀ cp s, 0 ≤ fo.advance cp s) (hkern : ∀ a b s, 0 ≤ fo.kerning a b s)
    (s : Str) : ∀ prev : Nat, 0 ≤ measureAux fo size prev 0 s := by
  induction s with
  | nil => intro prev; simp [measureAux]
  | cons c t ih =>
    intro prev
    simp only [measureAux]
    have h1 := hadv c.toNat size
    have h2 := ih c.toNat
    split
    · rw [measureAux_acc]
      have := hkern prev c.toNat size
      omega
    · rw [measureAux_acc]
      omega

theorem measureAux_append (fo : FontOracle) (size : Int) (s t : Str) :
    ∀ (prev : Nat) (acc : Int),
      measureAux fo size prev acc (s ++ t) =
        measureAux fo size (lastCpAux prev s) (measureAux fo size prev acc s) t := by
  induction s with
  | nil => intro prev acc; simp [measureAux, lastCpAux]
  | cons c r ih =>
    intro prev acc
    simp only [List.cons_append, measureAux, lastCpAux]
    exact ih c.toNat _

theorem measureAux_prev_mono (fo : FontOracle) (size : Int)
    (hkern : ∀ a b s, 0 ≤ fo.kerning a b s) (s : Str) (prev : Nat) :
    measureAux fo size 0 0 s ≤ measureAux fo size prev 0 s := by
  cases s with
  | nil => simp [measureAux]
  | cons c t =>
    simp only [measureAux]
    rw [if_neg (by simp : ¬ ((0 : Nat) ≠ 0))]
    rw [measureAux_acc fo size t c.toNat (0 + fo.advance c.toNat size)]
    have := hkern prev c.toNat size
    split
    · rw [measureAux_acc fo size t c.toNat
        (0 + fo.advance c.toNat size + fo.kerning prev c.toNat size)]
      omega
    · rw [measureAux_acc fo size t c.toNat (0 + fo.advance c.toNat size)]

theorem measure_mem_le (fo : FontOracle) (size : Int)
    (hadv : ∀ cp s, 0 ≤ fo.advance cp s) (hkern : ∀ a b s, 0 ≤ fo.kerning a b s)
    (w : Str) (l : List Str) (hw : w ∈ l) :
    measure_text fo w size ≤ measure_text fo (joinSpace l) size := by
  induction l with
  | nil => simp at hw
  | cons a rest ih =>
    rcases List.mem_cons.mp hw with rfl | hw
    · cases rest with
      | nil => simp [joinSpace]
      | cons b r2 =>
        show measure_text fo w size ≤ measure_text fo (w ++ ' ' :: joinSpace (b :: r2)) size
        unfold measure_text
        rw [measureAux_append fo size w (' ' :: joinSpace (b :: r2)) 0 0]
        rw [measureAux_acc fo size (' ' :: joinSpace (b :: r2)) (lastCpAux 0 w)
          (measureAux fo size 0 0 w)]
        have := measureAux_nonneg fo size hadv hkern (' ' :: joinSpace (b :: r2)) (lastCpAux 0 w)
        omega
    · have hr : rest ≠ [] := by intro hnil; rw [hnil] at hw; simp at hw
      have step : measure_text fo (joinSpace rest) size ≤
          measure_text fo (joinSpace (a :: rest)) size := by
        cases rest with
        | nil => simp at hr
        | cons b r2 =>
          show _ ≤ measure_text fo (a ++ ' ' :: joinSpace (b :: r2)) size
          unfold measure_text
          have hsplit : a ++ ' ' :: joinSpace (b :: r2) = (a ++ [' ']) ++ joinSpace (b :: r2) := by
            simp
          rw [hsplit, measureAux_append fo size (a ++ [' ']) (joinSpace (b :: r2)) 0 0]
          rw [measureAux_acc fo size (joinSpace (b :: r2)) (lastCpAux 0 (a ++ [' ']))
            (measureAux fo size 0 0 (a ++ [' ']))]
          have h1 := measureAux_nonneg fo size hadv hkern (a ++ [' ']) 0
          have h2 := measureAux_prev_mono fo size hkern (joinSpace (b :: r2)) (lastCpAux 0 (a ++ [' ']))
          omega
      exact (ih hw).trans step

theorem layoutTextLines_cons_start (fo : FontOracle) (fs x mx : Int) (word : Str)
    (ws : List Str) :
    layoutTextLines fo fs x mx (word :: ws) [] =
      layoutTextLines fo fs x mx ws [word] := by
  simp only [layoutTextLines]
  rw [if_neg (fun hc => hc.2 rfl), List.nil_append]

theorem layoutTextLines_cons_wrap (fo : FontOracle) (fs x mx : Int) (word : Str)
    (ws lw : List Str) (hlw : lw ≠ [])
    (hgt : mx < x + measure_text fo (joinSpace (lw ++ [word])) fs) :
    layoutTextLines fo fs x mx (word :: ws) lw =
      lw :: layoutTextLines fo fs x mx ws [word] := by
  simp only [layoutTextLines]
  rw [if_pos hlw, if_pos (And.intro hgt hlw)]

theorem layoutTextLines_cons_fit (fo : FontOracle) (fs x mx : Int) (word : Str)
    (ws lw : List Str) (hlw : lw ≠ [])
    (hle : x + measure_text fo (joinSpace (lw ++ [word])) fs ≤ mx) :
    layoutTextLines fo fs x mx (word :: ws) lw =
      layoutTextLines fo fs x mx ws (lw ++ [word]) := by
  simp only [layoutTextLines]
  rw [if_pos hlw, if_neg (fun hc => absurd hc.1 (not_lt.mpr hle))]

theorem layoutTextLines_flatten (fo : FontOracle) (fs x mx : Int) :
    ∀ (words lw : List Str),
      (layoutTextLines fo fs x mx words lw).flatten = lw ++ words := by
  intro words
  induction words with
  | nil =>
    intro lw
    simp only [layoutTextLines]
    split
    · simp
    · next h =>
      simp only [ne_eq, not_not] at h
      simp [h]
  | cons word ws ih =>
    intro lw
    by_cases hlw : lw = []
    · subst hlw
      rw [layoutTextLines_cons_start]
      simp [ih]
    · by_cases hgt : mx < x + measure_text fo (joinSpace (lw ++ [word])) fs
      · rw [layoutTextLines_cons_wrap fo fs x mx word ws lw hlw hgt]
        simp [ih]
      · rw [layoutTextLines_cons_fit fo fs x mx word ws lw hlw (not_lt.mp hgt)]
        simp [ih]

theorem layoutTextLines_ne_nil (fo : FontOracle) (fs x mx : Int) :
    ∀ (words lw : List Str), ∀ l ∈ layoutTextLines fo fs x mx words lw, l ≠ [] := by
  intro words
  induction words with
  | nil =>
    intro lw l hl
    simp only [layoutTextLines] at hl
    split at hl
    · next h =>
      simp only [List.mem_singleton] at hl
      subst hl
      exact h
    · simp at hl
  | cons word ws ih =>
    intro lw l hl
    by_cases hlw : lw = []
    · subst hlw
      rw [layoutTextLines_cons_start] at hl
      exact ih [word] l hl
    · by_cases hgt : mx < x + measure_text fo (joinSpace (lw ++ [word])) fs
      · rw [layoutTextLines_cons_wrap fo fs x mx word ws lw hlw hgt] at hl
        rcases List.mem_cons.mp hl with rfl | hl2
        · exact hlw
        · exact ih [word] l hl2
      · rw [layoutTextLines_cons_fit fo fs x mx word ws lw hlw (not_lt.mp hgt)] at hl
        exact ih (lw ++ [word]) l hl

theorem layoutTextLines_width (fo : FontOracle) (fs x mx : Int) :
    ∀ (words lw : List Str),
      (2 ≤ lw.length → x + measure_text fo (joinSpace lw) fs ≤ mx) →
      ∀ l ∈ layoutTextLines fo fs x mx words lw, 2 ≤ l.length →
        x + measure_text fo (joinSpace l) fs ≤ mx := by
  intro words
  induction words with
  | nil =>
    intro lw hinv l hl hlen
    simp only [layoutTextLines] at hl
    split at hl
    · simp only [List.mem_singleton] at hl
      subst hl
      exact hinv hlen
    · simp at hl
  | cons word ws ih =>
    intro lw hinv l hl hlen
    by_cases hlw : lw = []
    · subst hlw
      rw [layoutTextLines_cons_start] at hl
      exact ih [word] (by intro h2; simp at h2) l hl hlen
    · by_cases hgt : mx < x + measure_text fo (joinSpace (lw ++ [word])) fs
      · rw [layoutTextLines_cons_wrap fo fs x mx word ws lw hlw hgt] at hl
        rcases List.mem_cons.mp hl with rfl | hl2
        · exact hinv hlen
        · exact ih [word] (by intro h2; simp at h2) l hl2 hlen
      · rw [layoutTextLines_cons_fit fo fs x mx word ws lw hlw (not_lt.mp hgt)] at hl
        exact ih (lw ++ [word]) (fun _ => not_lt.mp hgt) l hl hlen

theorem layoutTextLines_head (fo : FontOracle) (fs x mx : Int) :
    ∀ (words lw : List Str), lw ≠ [] →
      ∃ ext rest, layoutTextLines fo fs x mx words lw = (lw ++ ext) :: rest := by
  intro words
  induction words with
  | nil =>
    intro lw hlw
    refine ⟨[], [], ?_⟩
    simp only [layoutTextLines]
    rw [if_pos hlw]
    simp
  | cons word ws ih =>
    intro lw hlw
    by_cases hgt : mx < x + measure_text fo (joinSpace (lw ++ [word])) fs
    · rw [layoutTextLines_cons_wrap fo fs x mx word ws lw hlw hgt]
      exact ⟨[], layoutTextLines fo fs x mx ws [word], by simp⟩
    · rw [layoutTextLines_cons_fit fo fs x mx word ws lw hlw (not_lt.mp hgt)]
      obtain ⟨ext, rest, heq⟩ := ih (lw ++ [word]) (by simp)
      exact ⟨[word] ++ ext, rest, by rw [heq]; simp⟩

theorem layoutTextLines_chain (fo : FontOracle) (fs x mx : Int) :
    ∀ (words lw : List Str),
      List.Chain' (fun l1 l2 => ∃ w t, l2 = w :: t ∧
        mx < x + measure_text fo (joinSpace (l1 ++ [w])) fs)
        (layoutTextLines fo fs x mx words lw) := by
  intro words
  induction words with
  | nil =>
    intro lw
    simp only [layoutTextLines]
    split <;> simp
  | cons word ws ih =>
    intro lw
    by_cases hlw : lw = []
    · subst hlw
      rw [layoutTextLines_cons_start]
      exact ih [word]
    · by_cases hgt : mx < x + measure_text fo (joinSpace (lw ++ [word])) fs
      · rw [layoutTextLines_cons_wrap fo fs x mx word ws lw hlw hgt]
        rw [List.chain'_cons']
        refine ⟨?_, ih [word]⟩
        intro b hb
        obtain ⟨ext, rest, heq⟩ := layoutTextLines_head fo fs x mx ws [word] (by simp)
        rw [heq] at hb
        simp only [List.head?_cons, Option.mem_def, Option.some.injEq] at hb
        subst hb
        exact ⟨word, ext, by simp, hgt⟩
      · rw [layoutTextLines_cons_fit fo fs x mx word ws lw hlw (not_lt.mp hgt)]
        exact ih (lw ++ [word])

/-- C6: greedy word wrap in `layout_text` is total (the embedding is structurally
recursive on the word list), emits every input word exactly once in order, never
emits an empty line (never wraps before a line's first word), keeps every
multi-word line within `max_x` (so words exactly filling the width do not wrap:
wrapping requires a strict overflow), wraps only when the next word would
strictly overflow the previous line, and puts a single word wider than the
viewport on a line of its own rather than dropping it. -/
theorem C6_wrap (fo : FontOracle) (font_size x max_x : Int)
    (hadv : ∀ cp s, 0 ≤ fo.advance cp s)
    (hkern : ∀ a b s, 0 ≤ fo.kerning a b s) (words : List Str) :
    (layoutTextLines fo font_size x max_x words []).flatten = words ∧
    (∀ l ∈ layoutTextLines fo font_size x max_x words [], l ≠ []) ∧
    (∀ l ∈ layoutTextLines fo font_size x max_x words [], 2 ≤ l.length →
      x + measure_text fo (joinSpace l) font_size ≤ max_x) ∧
    List.Chain' (fun l1 l2 => ∃ w t, l2 = w :: t ∧
      max_x < x + measure_text fo (joinSpace (l1 ++ [w])) font_size)
      (layoutTextLines fo font_size x max_x words []) ∧
    (∀ w ∈ words, max_x < x + measure_text fo w font_size →
      [w] ∈ layoutTextLines fo font_size x max_x words []) := by
  have hflat := layoutTextLines_flatten fo font_size x max_x words []
  have hne := layoutTextLines_ne_nil fo font_size x max_x words []
  have hwid := layoutTextLines_width fo font_size x max_x words []
    (by intro h2; simp at h2)
  have hch := layoutTextLines_chain fo font_size x max_x words []
  refine ⟨by simpa using hflat, hne, hwid, hch, ?_⟩
  intro w hw hbig
  have hw2 : w ∈ (layoutTextLines fo font_size x max_x words []).flatten := by
    rw [hflat]
    simpa using hw
  obtain ⟨l, hl, hwl⟩ := List.mem_flatten.mp hw2
  cases l with
  | nil => exact absurd rfl (hne [] hl)
  | cons a t =>
    cases t with
    | nil =>
      rcases List.mem_singleton.mp hwl with rfl
      exact hl
    | cons b r =>
      have hlen : 2 ≤ (a :: b :: r).length := by
        simp only [List.length_cons]
        omega
      have hb := hwid _ hl hlen
      have hmem := measure_mem_le fo font_size hadv hkern w (a :: b :: r) hwl
      exact absurd hbig (by omega)

/-- Witness for C6 at the constant-advance font: both nonnegativity
hypotheses hold, and on the words of "to be or not" with line start 10 and
right edge 58 every word is emitted exactly once; concretely the wrap yields
two lines with the second ("or not", width 48, 10 + 48 = 58) exactly filling
the width without wrapping. -/
theorem C6_witness :
    ((∀ cp s, (0 : Int) ≤ font0.advance cp s) ∧
      (∀ a b s, (0 : Int) ≤ font0.kerning a b s)) ∧
    (layoutTextLines font0 12 10 58 (pySplitWs (lit "to be or not")) []).flatten
      = pySplitWs (lit "to be or not") ∧
    layoutTextLines font0 12 10 58 (pySplitWs (lit "to be or not")) []
      = [[lit "to", lit "be"], [lit "or", lit "not"]] := by
  have h := C6_wrap font0 12 10 58 (fun cp s => by norm_num [font0])
    (fun a b s => by norm_num [font0]) (pySplitWs (lit "to be or not"))
  exact ⟨⟨fun cp s => by norm_num [font0], fun a b s => by norm_num [font0]⟩,
    h.1, by decide⟩

end Kivi
